import Mathlib

set_option allowUnsafeReducibility true

attribute [semireducible] Rat.add Rat.mul Rat.div Rat.inv Rat.sub Rat.neg Rat.ofScientific

/-!
Shallow embedding of the pathfinding core of the `traffic_planner` repository.

The repository contains two lineages of the engine:
* `src/src/pathfinding.c` (the refactored version taking an explicit
  `TrafficNetwork*` handle) — embedded below in namespace `Core`;
* `src/unnamed/part_005` (the older version working on global arrays,
  declared by `include/traffic_network.h`) — its cost model is embedded
  in namespace `Legacy`.

Machine doubles are modelled as exact rationals (`ℚ`), `DBL_MAX` as `⊤` in
`WithTop ℚ`, and `NULL` results as `none`.  The geographic distance routine
`calculate_distance` (src/src/distance.c) is a separate translation unit
computed with `sin`/`cos`/`atan2`; the engine only consumes its output, so the
engine embedding is parameterised by the linked-in distance oracle
`calcDist : ℚ → ℚ → ℚ → ℚ → ℚ` (latitude/longitude pairs to kilometres),
while `calculate_distance` itself is embedded over `ℝ` further below.
-/

/-- `NodeType` from include/types.h. -/
inductive NodeType where
  | LANDMARK
  | AIRPORT
  | HSR_STATION
deriving DecidableEq, Repr

/-- `TransportMode` from include/types.h; the constructor order is the C
enumeration order `DRIVING = 0, HIGH_SPEED_RAIL, FLIGHT, BUS`, which is the
order in which the relaxation loop tries modes. -/
inductive TransportMode where
  | DRIVING
  | HIGH_SPEED_RAIL
  | FLIGHT
  | BUS
deriving DecidableEq, Repr

/-- The list `[0, 1, 2, 3]` of modes, as iterated by
`for (mode_idx = 0; mode_idx < TRANSPORT_MODE_COUNT; mode_idx++)`. -/
def allTransportModes : List TransportMode :=
  [TransportMode.DRIVING, TransportMode.HIGH_SPEED_RAIL,
   TransportMode.FLIGHT, TransportMode.BUS]

/-- `Node` from include/types.h.  The `id` field of the C struct always equals
the node's index in the node array (arena+index pattern), so it is not
duplicated here; a node is addressed by its index. -/
structure Node where
  city_id : ℤ
  type : NodeType
  name : String
  latitude : ℚ
  longitude : ℚ
deriving DecidableEq, Repr

instance : Inhabited Node :=
  ⟨{ city_id := 0, type := NodeType.LANDMARK, name := "", latitude := 0, longitude := 0 }⟩

/-- `TravelInfo` from include/types.h.  When `is_reachable = false` the C code
leaves `time_hours`/`cost_yuan` uninitialised and no caller reads them; the
embedding puts `0` there. -/
structure TravelInfo where
  time_hours : ℚ
  cost_yuan : ℚ
  is_reachable : Bool
deriving DecidableEq, Repr

/-- `PathSegment` from include/types.h (the `next` pointer becomes list
structure in `RoutePath.segments`). -/
structure PathSegment where
  from_node_id : ℕ
  to_node_id : ℕ
  mode : TransportMode
  distance_km : ℚ
  time_hours : ℚ
  cost_yuan : ℚ
deriving DecidableEq, Repr

/-- `RoutePath` from include/types.h: the linked list headed by
`segments_head` is the list `segments`, plus the cached aggregate fields. -/
structure RoutePath where
  segments : List PathSegment
  segment_count : ℕ
  total_time : ℚ
  total_cost : ℚ
  total_distance : ℚ
deriving DecidableEq, Repr

/-- The all-zero `RoutePath` produced by `calloc(1, sizeof(RoutePath))`. -/
def RoutePath.empty : RoutePath :=
  { segments := [], segment_count := 0, total_time := 0, total_cost := 0, total_distance := 0 }

/-- `TrafficNetwork` from include/graph.h (capacity fields are allocator
bookkeeping with no observable behaviour and are dropped). -/
structure TrafficNetwork where
  nodes : List Node
  cities_count : ℕ
deriving Repr

/-- `traffic_network_get_node_count` (src/src/graph.c). -/
def traffic_network_get_node_count (network : TrafficNetwork) : ℕ :=
  network.nodes.length

/-- `traffic_network_get_node_by_id` (src/src/graph.c) for an in-range index;
out-of-range dereferences never occur in the engine loops. -/
def traffic_network_get_node_by_id (network : TrafficNetwork) (node_id : ℕ) : Node :=
  network.nodes.getD node_id default

namespace Core

/-- `transport_attrs` from src/src/pathfinding.c lines 17-25:
per-mode `(speed_kmh, cost_per_km)`. -/
def transport_attrs : TransportMode → ℚ × ℚ
  | TransportMode.DRIVING => (60, 0.8)
  | TransportMode.HIGH_SPEED_RAIL => (250, 0.4)
  | TransportMode.FLIGHT => (800, 0.6)
  | TransportMode.BUS => (40, 0.2)

/-- `calculate_travel_info` from src/src/pathfinding.c lines 41-83.
Mode legality: Flight and HighSpeedRail require different cities and the
matching hub type at both ends; Driving/Bus are refused only when the two
endpoints are in the same city, the origin is not a Landmark, and the two
types coincide.  Costs: intra-city Driving is 30 km/h at 1.5 yuan/km,
intra-city Bus 25 km/h at 0.3 yuan/km, inter-city per `transport_attrs`.
There is no long-distance surcharge in this version. -/
def calculate_travel_info (distance_km : ℚ) (mode : TransportMode)
    (from_node to_node : Node) : TravelInfo :=
  let unreachable : TravelInfo := { time_hours := 0, cost_yuan := 0, is_reachable := false }
  let is_intra_city : Bool := from_node.city_id == to_node.city_id
  let ruleOk : Bool :=
    match mode with
    | TransportMode.FLIGHT =>
        !(is_intra_city || from_node.type != NodeType.AIRPORT
          || to_node.type != NodeType.AIRPORT)
    | TransportMode.HIGH_SPEED_RAIL =>
        !(is_intra_city || from_node.type != NodeType.HSR_STATION
          || to_node.type != NodeType.HSR_STATION)
    | TransportMode.DRIVING =>
        !(is_intra_city && from_node.type != NodeType.LANDMARK
          && from_node.type == to_node.type)
    | TransportMode.BUS =>
        !(is_intra_city && from_node.type != NodeType.LANDMARK
          && from_node.type == to_node.type)
  if ruleOk then
    if is_intra_city then
      if mode = TransportMode.DRIVING then
        { time_hours := distance_km / 30, cost_yuan := distance_km * 1.5, is_reachable := true }
      else
        { time_hours := distance_km / 25, cost_yuan := distance_km * 0.3, is_reachable := true }
    else
      { time_hours := distance_km / (transport_attrs mode).1,
        cost_yuan := distance_km * (transport_attrs mode).2, is_reachable := true }
  else unreachable

end Core

namespace Legacy

/-- `transport_attrs` from src/unnamed/part_005 lines 8-16 (same table as the
`Core` one). -/
def transport_attrs : TransportMode → ℚ × ℚ
  | TransportMode.DRIVING => (60, 0.8)
  | TransportMode.HIGH_SPEED_RAIL => (250, 0.4)
  | TransportMode.FLIGHT => (800, 0.6)
  | TransportMode.BUS => (40, 0.2)

/-- `calculate_travel_info` from src/unnamed/part_005 lines 19-58.
Driving/Bus between different cities additionally require both endpoints to be
Landmarks, and same-city same-type pairs are always refused.  Intra-city
Driving is 60 km/h at 0.8 yuan/km, intra-city Bus 40 km/h at 0.2 yuan/km.
A Bus trip longer than 300 km costs 1.5 times the base price. -/
def calculate_travel_info (distance_km : ℚ) (mode : TransportMode)
    (from_node to_node : Node) : TravelInfo :=
  let unreachable : TravelInfo := { time_hours := 0, cost_yuan := 0, is_reachable := false }
  let is_intra_city : Bool := from_node.city_id == to_node.city_id
  let ruleOk : Bool :=
    match mode with
    | TransportMode.FLIGHT =>
        !(is_intra_city || from_node.type != NodeType.AIRPORT
          || to_node.type != NodeType.AIRPORT)
    | TransportMode.HIGH_SPEED_RAIL =>
        !(is_intra_city || from_node.type != NodeType.HSR_STATION
          || to_node.type != NodeType.HSR_STATION)
    | TransportMode.DRIVING =>
        !(!is_intra_city && (from_node.type != NodeType.LANDMARK
            || to_node.type != NodeType.LANDMARK))
        && !(is_intra_city && from_node.type == to_node.type)
    | TransportMode.BUS =>
        !(!is_intra_city && (from_node.type != NodeType.LANDMARK
            || to_node.type != NodeType.LANDMARK))
        && !(is_intra_city && from_node.type == to_node.type)
  if ruleOk then
    let base : TravelInfo :=
      if is_intra_city then
        if mode = TransportMode.DRIVING then
          { time_hours := distance_km / 60, cost_yuan := distance_km * 0.8, is_reachable := true }
        else
          { time_hours := distance_km / 40, cost_yuan := distance_km * 0.2, is_reachable := true }
      else
        { time_hours := distance_km / (transport_attrs mode).1,
          cost_yuan := distance_km * (transport_attrs mode).2, is_reachable := true }
    if mode = TransportMode.BUS ∧ distance_km > 300 then
      { base with cost_yuan := base.cost_yuan * 1.5 }
    else base
  else unreachable

end Legacy

/-! ## Distance function (src/src/distance.c), over `ℝ` -/

/-- `deg_to_rad` from src/src/distance.c. -/
noncomputable def deg_to_rad (degrees : ℝ) : ℝ :=
  degrees * Real.pi / 180

/-- C's `atan2(y, x)` restricted to real arguments, following the C standard
case analysis (the code only ever calls it with `y = sqrt a ≥ 0`,
`x = sqrt (1-a) ≥ 0`). -/
noncomputable def atan2 (y x : ℝ) : ℝ :=
  if 0 < x then Real.arctan (y / x)
  else if x < 0 ∧ 0 ≤ y then Real.arctan (y / x) + Real.pi
  else if x < 0 ∧ y < 0 then Real.arctan (y / x) - Real.pi
  else if x = 0 ∧ 0 < y then Real.pi / 2
  else if x = 0 ∧ y < 0 then -(Real.pi / 2)
  else 0

/-- The intermediate value `a` of src/src/distance.c lines 47-50:
`sin²(Δφ/2) + cos φ1 · cos φ2 · sin²(Δλ/2)` on radian inputs. -/
noncomputable def haversine_a (lat1 lon1 lat2 lon2 : ℝ) : ℝ :=
  Real.sin ((deg_to_rad lat2 - deg_to_rad lat1) / 2) *
    Real.sin ((deg_to_rad lat2 - deg_to_rad lat1) / 2) +
  Real.cos (deg_to_rad lat1) * Real.cos (deg_to_rad lat2) *
    Real.sin ((deg_to_rad lon2 - deg_to_rad lon1) / 2) *
    Real.sin ((deg_to_rad lon2 - deg_to_rad lon1) / 2)

/-- `EARTH_RADIUS_KM` from src/src/distance.c. -/
def EARTH_RADIUS_KM : ℝ := 6371

/-- `calculate_distance` from src/src/distance.c lines 35-58:
`d = R · 2 · atan2(√a, √(1−a))`. -/
noncomputable def calculate_distance (lat1 lon1 lat2 lon2 : ℝ) : ℝ :=
  EARTH_RADIUS_KM *
    (2 * atan2 (Real.sqrt (haversine_a lat1 lon1 lat2 lon2))
      (Real.sqrt (1 - haversine_a lat1 lon1 lat2 lon2)))

/-! ## Shortest-path engine (src/src/pathfinding.c), namespace `Core` -/

namespace Core

/-- The read-only inputs threaded through the Dijkstra loops: the linked-in
distance routine, the network handle and the two weights. -/
structure SPInput where
  calcDist : ℚ → ℚ → ℚ → ℚ → ℚ
  network : TrafficNetwork
  time_weight : ℚ
  cost_weight : ℚ

/-- The distance between nodes `u` and `v` as computed at
src/src/pathfinding.c line 142 (and again at line 182). -/
def nodeDist (inp : SPInput) (u v : ℕ) : ℚ :=
  let from_node := traffic_network_get_node_by_id inp.network u
  let to_node := traffic_network_get_node_by_id inp.network v
  inp.calcDist from_node.latitude from_node.longitude to_node.latitude to_node.longitude

/-- `MAX_DIST_ESTIMATE` (line 105). -/
def MAX_DIST_ESTIMATE : ℚ := 6000

/-- `MAX_TIME_ESTIMATE` (line 106): slowest (bus) speed over the assumed
maximal distance. -/
def MAX_TIME_ESTIMATE : ℚ := MAX_DIST_ESTIMATE / 40

/-- `MAX_COST_ESTIMATE` (line 107): most expensive (intra-city driving) rate
over the assumed maximal distance. -/
def MAX_COST_ESTIMATE : ℚ := MAX_DIST_ESTIMATE * 1.5

/-- The normalised weighted cost of one evaluated edge (lines 150-152). -/
def weighted_cost (inp : SPInput) (travel : TravelInfo) : ℚ :=
  travel.time_hours / MAX_TIME_ESTIMATE * inp.time_weight
  + travel.cost_yuan / MAX_COST_ESTIMATE * inp.cost_weight

/-- The `TravelInfo` evaluated for the ordered pair `(u, v)` under `mode`. -/
def travelInfoOf (inp : SPInput) (u v : ℕ) (mode : TransportMode) : TravelInfo :=
  calculate_travel_info (nodeDist inp u v) mode
    (traffic_network_get_node_by_id inp.network u)
    (traffic_network_get_node_by_id inp.network v)

/-- The per-node bookkeeping of the Dijkstra run: the `DijkstraNode` array
(`cost`, `predecessor_node_id` with `-1` as `none`, `predecessor_mode`) and
the `visited` array.  `visited` is kept as the list of visited indices in
reverse visiting order; `visited[j]` in C is `j ∈ visitedL` here. -/
structure DijkstraState where
  cost : ℕ → WithTop ℚ
  pred : ℕ → Option (ℕ × TransportMode)
  visitedL : List ℕ

/-- The initial state (lines 110-117): all costs `DBL_MAX` except the start
node at `0`, all predecessors `-1`, nothing visited. -/
def initState (start_n : ℕ) : DijkstraState :=
  { cost := fun i => if i = start_n then (0 : WithTop ℚ) else ⊤,
    pred := fun _ => none,
    visitedL := [] }

/-- One mode of the relaxation of edge `(u, v)` (lines 146-161): if the mode is
reachable and improves on `cost v`, update `cost v` and the predecessor. -/
def relaxMode (inp : SPInput) (u v : ℕ) (s : DijkstraState) (mode : TransportMode) :
    DijkstraState :=
  let travel := travelInfoOf inp u v mode
  if travel.is_reachable then
    let wc := weighted_cost inp travel
    if s.cost u + (wc : WithTop ℚ) < s.cost v then
      { s with
        cost := fun j => if j = v then s.cost u + (wc : WithTop ℚ) else s.cost j,
        pred := fun j => if j = v then some (u, mode) else s.pred j }
    else s
  else s

/-- The body of the neighbour loop (lines 138-162): skip visited `v`, skip
pairs at distance `≤ 0.1` km, then try all four modes in order. -/
def relaxNode (inp : SPInput) (u : ℕ) (s : DijkstraState) (v : ℕ) : DijkstraState :=
  if v ∈ s.visitedL then s
  else if nodeDist inp u v ≤ 0.1 then s
  else allTransportModes.foldl (relaxMode inp u v) s

/-- The scan for the unvisited node of minimal tentative cost
(lines 122-130); `none` plays `u = -1`.  The scan keeps the first strict
minimum, as the C `<` comparison does. -/
def selectMin (s : DijkstraState) (node_count : ℕ) : Option ℕ :=
  ((List.range node_count).foldl
    (fun acc j =>
      if j ∉ s.visitedL ∧ s.cost j < acc.2 then ((some j : Option ℕ), s.cost j) else acc)
    ((none : Option ℕ), (⊤ : WithTop ℚ))).1

/-- The main Dijkstra loop (lines 121-163): at most `node_count` iterations,
each selecting the cheapest unvisited node, stopping on exhaustion (`u = -1`)
or on selecting the target, otherwise marking it visited and relaxing all its
outgoing candidate edges. -/
def dijkstraLoop (inp : SPInput) (end_n node_count : ℕ) :
    ℕ → DijkstraState → DijkstraState
  | 0, s => s
  | Nat.succ fuel, s =>
    match selectMin s node_count with
    | none => s
    | some u =>
      if u = end_n then s
      else
        dijkstraLoop inp end_n node_count fuel
          ((List.range node_count).foldl (relaxNode inp u)
            { s with visitedL := u :: s.visitedL })

/-- One reconstructed segment (lines 179-190): distance and travel numbers are
recomputed from the stored predecessor mode. -/
def mkSegment (inp : SPInput) (pred_node_id current_node_id : ℕ) (mode : TransportMode) :
    PathSegment :=
  let dist := nodeDist inp pred_node_id current_node_id
  let travel := travelInfoOf inp pred_node_id current_node_id mode
  { from_node_id := pred_node_id,
    to_node_id := current_node_id,
    mode := mode,
    distance_km := dist,
    time_hours := travel.time_hours,
    cost_yuan := travel.cost_yuan }

/-- The path-reconstruction loop (lines 175-203): walk predecessor links from
the target back to the source, prepending a segment and accumulating the
totals at each step.  The C `while` is given `node_count` fuel; the
predecessor chain is proved below to reach the start within that bound. -/
def buildLoop (inp : SPInput) (start_n : ℕ) (s : DijkstraState) :
    ℕ → ℕ → RoutePath → RoutePath
  | 0, _, path => path
  | Nat.succ fuel, current_node_id, path =>
    if current_node_id = start_n then path
    else
      match s.pred current_node_id with
      | none => path
      | some (pred_node_id, mode) =>
        let seg := mkSegment inp pred_node_id current_node_id mode
        buildLoop inp start_n s fuel pred_node_id
          { segments := seg :: path.segments,
            segment_count := path.segment_count + 1,
            total_time := path.total_time + seg.time_hours,
            total_cost := path.total_cost + seg.cost_yuan,
            total_distance := path.total_distance + seg.distance_km }

/-- `find_shortest_path` from src/src/pathfinding.c lines 98-208.
Returns `none` for out-of-range identifiers (line 100) and for an
unreached target distinct from the source (lines 167-171). -/
def find_shortest_path (calcDist : ℚ → ℚ → ℚ → ℚ → ℚ) (network : TrafficNetwork)
    (start_node_id end_node_id : ℤ) (time_weight cost_weight : ℚ) : Option RoutePath :=
  let node_count := traffic_network_get_node_count network
  if start_node_id < 0 ∨ start_node_id ≥ (node_count : ℤ)
      ∨ end_node_id < 0 ∨ end_node_id ≥ (node_count : ℤ) then
    none
  else
    let start_n := start_node_id.toNat
    let end_n := end_node_id.toNat
    let inp : SPInput := ⟨calcDist, network, time_weight, cost_weight⟩
    let final := dijkstraLoop inp end_n node_count node_count (initState start_n)
    if final.pred end_n = none ∧ start_n ≠ end_n then none
    else some (buildLoop inp start_n final node_count end_n RoutePath.empty)

/-- `stitch_paths` from src/src/pathfinding.c lines 215-240: a `NULL` or
segmentless leg leaves the main path untouched (the leg is only released);
otherwise the leg's segments are spliced in front and the cached totals are
merged by addition. -/
def stitch_paths (main_path : RoutePath) (leg_to_prepend : Option RoutePath) : RoutePath :=
  match leg_to_prepend with
  | none => main_path
  | some leg =>
    if leg.segments = [] then main_path
    else
      { segments := leg.segments ++ main_path.segments,
        segment_count := main_path.segment_count + leg.segment_count,
        total_time := main_path.total_time + leg.total_time,
        total_cost := main_path.total_cost + leg.total_cost,
        total_distance := main_path.total_distance + leg.total_distance }

/-- The TSP cost matrix (lines 253-271): `0` on the diagonal, else the
normalised weighted total of the pairwise shortest path, `DBL_MAX` (`⊤`) when
there is no path or it has no positive distance. -/
def tsp_cost_matrix (calcDist : ℚ → ℚ → ℚ → ℚ → ℚ) (network : TrafficNetwork)
    (time_weight cost_weight : ℚ) (node_ids : List ℤ) (i j : ℕ) : WithTop ℚ :=
  if i = j then 0
  else
    match find_shortest_path calcDist network (node_ids.getD i 0) (node_ids.getD j 0)
        time_weight cost_weight with
    | some p =>
      if 0 < p.total_distance then
        ((p.total_time / (6000 / 40) * time_weight
          + p.total_cost / (6000 * 1.5) * cost_weight : ℚ) : WithTop ℚ)
      else ⊤
    | none => ⊤

/-- The pair of DP tables (lines 277-283): `dp mask i` is the cheapest cost of
visiting exactly `mask` and sitting at `i`; `pt` records backpointers.
Unwritten `path_table` cells are `none`. -/
structure TspTables where
  dp : ℕ → ℕ → WithTop ℚ
  pt : ℕ → ℕ → Option ℕ

/-- The relaxation of one DP transition (lines 291-299): extend the partial
tour `(mask, u)` by an unvisited `v`. -/
def tspRelax (cm : ℕ → ℕ → WithTop ℚ) (mask u : ℕ) (t : TspTables) (v : ℕ) : TspTables :=
  if ¬ mask.testBit v then
    let next_mask := mask ||| (1 <<< v)
    if t.dp mask u + cm u v < t.dp next_mask v then
      { dp := fun m i => if m = next_mask ∧ i = v then t.dp mask u + cm u v else t.dp m i,
        pt := fun m i => if m = next_mask ∧ i = v then some u else t.pt m i }
    else t
  else t

/-- The inner `u` loop of the DP (lines 287-300): skip `u ∉ mask` and
infinite `dp mask u`. -/
def tspInner (cm : ℕ → ℕ → WithTop ℚ) (num_nodes mask : ℕ) (t : TspTables) (u : ℕ) :
    TspTables :=
  if mask.testBit u ∧ t.dp mask u ≠ ⊤ then
    (List.range num_nodes).foldl (tspRelax cm mask u) t
  else t

/-- One `mask` iteration of the DP (line 286). -/
def tspMaskStep (cm : ℕ → ℕ → WithTop ℚ) (num_nodes : ℕ) (t : TspTables) (mask : ℕ) :
    TspTables :=
  (List.range num_nodes).foldl (tspInner cm num_nodes mask) t

/-- The full Held-Karp sweep (lines 276-301): masks `1 .. 2^n - 1` in order,
from the base case `dp 1 0 = 0`. -/
def tspDP (cm : ℕ → ℕ → WithTop ℚ) (num_nodes : ℕ) : TspTables :=
  (List.range' 1 (2 ^ num_nodes - 1)).foldl (tspMaskStep cm num_nodes)
    { dp := fun m i => if m = 1 ∧ i = 0 then 0 else ⊤, pt := fun _ _ => none }

/-- The closing scan (lines 305-315): over `i = 1 .. n-1` pick the first
strict minimiser of `dp full i + cm i 0` among finite candidates. -/
def tspSelectEnd (cm : ℕ → ℕ → WithTop ℚ) (dpFull : ℕ → WithTop ℚ) (num_nodes : ℕ) :
    Option ℕ :=
  ((List.range' 1 (num_nodes - 1)).foldl
    (fun acc i =>
      if dpFull i ≠ ⊤ ∧ cm i 0 ≠ ⊤ ∧ dpFull i + cm i 0 < acc.2 then
        ((some i : Option ℕ), dpFull i + cm i 0)
      else acc)
    ((none : Option ℕ), (⊤ : WithTop ℚ))).1

/-- The backpointer walk of the reconstruction (lines 325-331), stitching the
leg from the previous tour city in front at each step; fuel `num_nodes`
suffices because the visited-set mask loses one bit per step. -/
def tspRebuild (calcDist : ℚ → ℚ → ℚ → ℚ → ℚ) (network : TrafficNetwork)
    (time_weight cost_weight : ℚ) (node_ids : List ℤ) (pt : ℕ → ℕ → Option ℕ) :
    ℕ → ℕ → ℕ → RoutePath → RoutePath
  | 0, _, _, path => path
  | Nat.succ fuel, current_mask, current_city_idx, path =>
    if current_city_idx = 0 then path
    else
      match pt current_mask current_city_idx with
      | none => path
      | some prev_city_idx =>
        tspRebuild calcDist network time_weight cost_weight node_ids pt fuel
          (current_mask ^^^ (1 <<< current_city_idx)) prev_city_idx
          (stitch_paths path
            (find_shortest_path calcDist network (node_ids.getD prev_city_idx 0)
              (node_ids.getD current_city_idx 0) time_weight cost_weight))

/-- `solve_tsp` from src/src/pathfinding.c lines 243-342. -/
def solve_tsp (calcDist : ℚ → ℚ → ℚ → ℚ → ℚ) (network : TrafficNetwork)
    (node_ids_to_visit : List ℤ) (num_nodes : ℤ) (time_weight cost_weight : ℚ) :
    Option RoutePath :=
  if num_nodes ≤ 1 then none
  else if num_nodes > 10 then none
  else
    let n := num_nodes.toNat
    let cm := tsp_cost_matrix calcDist network time_weight cost_weight node_ids_to_visit
    let t := tspDP cm n
    let final_mask := 2 ^ n - 1
    match tspSelectEnd cm (t.dp final_mask) n with
    | none => none
    | some tour_end_city =>
      some (tspRebuild calcDist network time_weight cost_weight node_ids_to_visit t.pt n
        final_mask tour_end_city
        (stitch_paths RoutePath.empty
          (find_shortest_path calcDist network (node_ids_to_visit.getD tour_end_city 0)
            (node_ids_to_visit.getD 0 0) time_weight cost_weight)))

end Core

/-! ## Legality, chain weights and route predicates used in the statements -/

namespace Core

/-- The weighted cost of the candidate edge `(u, v)` under `mode`, exactly as
combined at lines 150-152. -/
def stepWeight (inp : SPInput) (u v : ℕ) (mode : TransportMode) : ℚ :=
  weighted_cost inp (travelInfoOf inp u v mode)

/-- An edge the Dijkstra loop can actually use: in-range target, geographic
distance above the `0.1` km cutoff (line 143), and reachable for the chosen
mode per the Cost Model. -/
def legalStepB (inp : SPInput) (node_count u v : ℕ) (mode : TransportMode) : Bool :=
  decide (v < node_count) && decide ((0.1 : ℚ) < nodeDist inp u v)
    && (travelInfoOf inp u v mode).is_reachable

/-- A sequence of engine-usable edges from `a` to `b`; each entry gives the
mode and the target node of one edge. -/
def legalChainB (inp : SPInput) (node_count : ℕ) :
    ℕ → List (TransportMode × ℕ) → ℕ → Bool
  | a, [], b => a == b
  | a, (m, v) :: rest, b => legalStepB inp node_count a v m && legalChainB inp node_count v rest b

/-- An edge that is legal for the Cost Model alone (no distance cutoff), the
reading of "legal sequence of edges" that ignores the engine's `0.1` km
filter. -/
def modelStepB (inp : SPInput) (node_count u v : ℕ) (mode : TransportMode) : Bool :=
  decide (v < node_count) && (travelInfoOf inp u v mode).is_reachable

/-- A sequence of Cost-Model-legal edges from `a` to `b`. -/
def modelChainB (inp : SPInput) (node_count : ℕ) :
    ℕ → List (TransportMode × ℕ) → ℕ → Bool
  | a, [], b => a == b
  | a, (m, v) :: rest, b => modelStepB inp node_count a v m && modelChainB inp node_count v rest b

/-- The summed weighted cost of a chain of edges. -/
def chainWeight (inp : SPInput) : ℕ → List (TransportMode × ℕ) → ℚ
  | _, [] => 0
  | a, (m, v) :: rest => stepWeight inp a v m + chainWeight inp v rest

/-- The weighted cost a segment contributes, from its cached time and cost. -/
def segWeight (inp : SPInput) (seg : PathSegment) : ℚ :=
  seg.time_hours / MAX_TIME_ESTIMATE * inp.time_weight
  + seg.cost_yuan / MAX_COST_ESTIMATE * inp.cost_weight

/-- The weighted cost of a whole returned route. -/
def routeWeightedCost (inp : SPInput) (r : RoutePath) : ℚ :=
  (r.segments.map (segWeight inp)).sum

/-- The state of the Dijkstra bookkeeping after the main loop, before path
reconstruction, for the given (already range-checked) endpoints. -/
def finalState (inp : SPInput) (start_n end_n node_count : ℕ) : DijkstraState :=
  dijkstraLoop inp end_n node_count node_count (initState start_n)

end Core

/-- The §3 contiguity invariant: each segment ends where the next begins. -/
def RoutePath.contiguous (r : RoutePath) : Prop :=
  List.Chain' (fun a b => a.to_node_id = b.from_node_id) r.segments

/-- The §3 cached-totals invariant: every aggregate field equals the sum of
the per-segment values, and the count is the number of segments. -/
def RoutePath.totalsOk (r : RoutePath) : Prop :=
  r.total_distance = (r.segments.map PathSegment.distance_km).sum
  ∧ r.total_time = (r.segments.map PathSegment.time_hours).sum
  ∧ r.total_cost = (r.segments.map PathSegment.cost_yuan).sum
  ∧ r.segment_count = r.segments.length

/-! ## Invariants of the Dijkstra state -/

namespace Core

/-- Weight-sign-independent invariants of the Dijkstra state: visited-list
sanity, the finite-cost/predecessor correspondence, soundness of every stored
predecessor edge, and that predecessor links point strictly down the visiting
order. -/
structure DInvB (inp : SPInput) (node_count start_n : ℕ) (s : DijkstraState) : Prop where
  nodup : s.visitedL.Nodup
  vlt : ∀ u ∈ s.visitedL, u < node_count
  visitedFinite : ∀ u ∈ s.visitedL, s.cost u ≠ ⊤
  finiteIff : ∀ v, s.cost v ≠ ⊤ ↔ (v = start_n ∨ s.pred v ≠ none)
  predSpec : ∀ v u m, s.pred v = some (u, m) →
    u < node_count ∧ v < node_count ∧ 0.1 < nodeDist inp u v
    ∧ (travelInfoOf inp u v m).is_reachable = true
    ∧ u ∈ s.visitedL
    ∧ s.cost v = s.cost u + ((stepWeight inp u v m : ℚ) : WithTop ℚ)
  predOrder : ∀ pre v suf, s.visitedL = pre ++ v :: suf →
    ∀ u m, s.pred v = some (u, m) → u ∈ suf

/-- The additional invariants that hold when both weights are nonnegative:
the source keeps cost `0` and no predecessor, all costs are nonnegative,
visited costs are below unvisited costs, and every edge out of a visited node
has been relaxed. -/
structure DInvM (inp : SPInput) (node_count start_n : ℕ) (s : DijkstraState) : Prop where
  toB : DInvB inp node_count start_n s
  cost0 : s.cost start_n = 0
  pred0 : s.pred start_n = none
  nonneg : ∀ v, 0 ≤ s.cost v
  m1 : ∀ u ∈ s.visitedL, ∀ v, v < node_count → v ∉ s.visitedL → s.cost u ≤ s.cost v
  relaxDone : ∀ u ∈ s.visitedL, ∀ v, v < node_count → ∀ m,
    0.1 < nodeDist inp u v → (travelInfoOf inp u v m).is_reachable = true →
    s.cost v ≤ s.cost u + ((stepWeight inp u v m : ℚ) : WithTop ℚ)

/-- The shape of any state change performed while relaxing out of the visited
node `u`: the visited list is untouched, `u`'s own cost is untouched, costs
never increase, and any touched node is an unvisited in-range node whose cost
and predecessor were rewritten together by a strictly improving legal edge
out of `u`. -/
def RelaxTrans (inp : SPInput) (node_count u : ℕ) (s s2 : DijkstraState) : Prop :=
  s2.visitedL = s.visitedL ∧
  s2.cost u = s.cost u ∧
  (∀ j, s2.cost j ≤ s.cost j) ∧
  (∀ j, (s2.cost j = s.cost j ∧ s2.pred j = s.pred j) ∨
    (j ∉ s.visitedL ∧ j < node_count ∧ s2.cost j < s.cost j ∧
      ∃ m, 0.1 < nodeDist inp u j ∧ (travelInfoOf inp u j m).is_reachable = true ∧
        s2.cost j = s.cost u + ((stepWeight inp u j m : ℚ) : WithTop ℚ) ∧
        s2.pred j = some (u, m)))

/-- `ReachIn s start fuel v`: walking predecessor links from `v` reaches
`start` within `fuel` steps (the termination certificate for `buildLoop`). -/
inductive ReachIn (s : DijkstraState) (start_n : ℕ) : ℕ → ℕ → Prop where
  | self : ∀ fuel, ReachIn s start_n fuel start_n
  | step : ∀ fuel cur p m, cur ≠ start_n → s.pred cur = some (p, m) →
      ReachIn s start_n fuel p → ReachIn s start_n (fuel + 1) cur

end Core

/-! ## Concrete instances used by counterexamples and witnesses -/

/-- Node A of the §8 three-node scenario with B removed: the Landmark of
city 1. -/
def scenA : Node :=
  { city_id := 1, type := NodeType.LANDMARK, name := "A", latitude := 0, longitude := 0 }

/-- Node C of the §8 scenario: the Airport of city 2. -/
def scenC : Node :=
  { city_id := 2, type := NodeType.AIRPORT, name := "C", latitude := 0, longitude := 10 }

/-- The scenario network holding only A and C. -/
def scenNet : TrafficNetwork := ⟨[scenA, scenC], 2⟩

/-- A distance oracle for the scenario: 1000 km between the two distinct
points, 0 km on identical coordinates (the qualitative shape of the haversine
values for two far-apart locations). -/
def scenDist : ℚ → ℚ → ℚ → ℚ → ℚ := fun _ o1 _ o2 => if o1 = o2 then 0 else 1000

/-- Three one-landmark cities; nodes 0 and 1 are geographically almost
identical (50 m apart), node 2 is 200 km from both.  Realisable with actual
coordinates; used to exhibit the effect of the engine's `0.1` km cutoff. -/
def cexNet : TrafficNetwork := ⟨[
  { city_id := 0, type := NodeType.LANDMARK, name := "P", latitude := 0, longitude := 0 },
  { city_id := 1, type := NodeType.LANDMARK, name := "Q", latitude := 0, longitude := 1 },
  { city_id := 2, type := NodeType.LANDMARK, name := "R", latitude := 0, longitude := 5 }], 3⟩

/-- The distance oracle for `cexNet`: symmetric, zero on equal coordinates,
`1/20` km between nodes 0 and 1, `200` km otherwise. -/
def cexDist : ℚ → ℚ → ℚ → ℚ → ℚ := fun _ o1 _ o2 =>
  if o1 = o2 then 0
  else if (o1 = 0 ∧ o2 = 1) ∨ (o1 = 1 ∧ o2 = 0) then 1 / 20 else 200

/-- The `SPInput` of the `cexNet` query with both weights `1`. -/
def cexInp : Core.SPInput := ⟨cexDist, cexNet, 1, 1⟩

/-- A one-node network (a single city Landmark), for degenerate-query
witnesses. -/
def oneNet : TrafficNetwork :=
  ⟨[{ city_id := 0, type := NodeType.LANDMARK, name := "O", latitude := 3, longitude := 4 }], 1⟩

namespace Core

/-- The number of bits of `mask` set below `n` (the size of the visited set a
DP mask encodes). -/
def popcnt (n mask : ℕ) : ℕ :=
  ((Finset.range n).filter (fun i => mask.testBit i = true)).card

/-- Invariant of the Held-Karp tables, with `b` the largest mask processed so
far: every finite `dp` entry describes either the base state or an extension
of a finite smaller state recorded in the backpointer table, and only cells
reachable from already-processed masks have been written. -/
structure TspInv (cm : ℕ → ℕ → WithTop ℚ) (num_nodes b : ℕ) (t : TspTables) : Prop where
  dpSpec : ∀ mask v, t.dp mask v ≠ ⊤ →
    mask.testBit 0 = true ∧ v < num_nodes ∧ mask.testBit v = true ∧
    ((mask = 1 ∧ v = 0) ∨
      (v ≠ 0 ∧ ∃ u, t.pt mask v = some u ∧ u < num_nodes ∧
        (mask ^^^ (1 <<< v)).testBit u = true ∧
        t.dp (mask ^^^ (1 <<< v)) u ≠ ⊤ ∧ cm u v ≠ ⊤ ∧
        t.dp mask v = t.dp (mask ^^^ (1 <<< v)) u + cm u v))
  fresh : ∀ mask v, t.dp mask v ≠ ⊤ → (mask = 1 ∧ v = 0) ∨ mask ^^^ (1 <<< v) ≤ b

/-- The per-segment well-formedness every reconstructed segment enjoys:
in-range endpoints, a distance field recomputed from the oracle for exactly
this pair, and the `0.1` km cutoff respected. -/
def segGood (inp : SPInput) (seg : PathSegment) : Prop :=
  seg.from_node_id < traffic_network_get_node_count inp.network
  ∧ seg.to_node_id < traffic_network_get_node_count inp.network
  ∧ seg.distance_km = nodeDist inp seg.from_node_id seg.to_node_id
  ∧ 0.1 < seg.distance_km

/-- Soundness of the backpointer table alone: every stored predecessor lies on
a finite cost-matrix entry between distinct indices. -/
def PtOK (cm : ℕ → ℕ → WithTop ℚ) (t : TspTables) : Prop :=
  ∀ mask v u, t.pt mask v = some u → cm u v ≠ ⊤ ∧ u ≠ v

end Core

/-- A Landmark of city 0, for witnesses. -/
def nodeP : Node :=
  { city_id := 0, type := NodeType.LANDMARK, name := "P", latitude := 0, longitude := 0 }

/-- A Landmark of city 1, for witnesses. -/
def nodeQ : Node :=
  { city_id := 1, type := NodeType.LANDMARK, name := "Q", latitude := 0, longitude := 1 }

/-! ## Cost-model characterisations -/

/-- In src/src/pathfinding.c, a Driving edge is reachable unless the endpoints
share a city, the origin is a non-Landmark, and the two types coincide. -/
theorem Core_driving_reachable_iff (d : ℚ) (f t : Node) :
    (Core.calculate_travel_info d TransportMode.DRIVING f t).is_reachable = true ↔
    ¬(f.city_id = t.city_id ∧ f.type ≠ NodeType.LANDMARK ∧ f.type = t.type) := by
  by_cases h1 : f.city_id = t.city_id <;> by_cases h2 : f.type = t.type <;>
    by_cases h3 : f.type = NodeType.LANDMARK <;> by_cases h4 : t.type = NodeType.LANDMARK <;>
      simp [Core.calculate_travel_info, h1, h2, h3, h4] <;> split_ifs <;> simp_all

/-- Same relaxed rule for Bus in src/src/pathfinding.c. -/
theorem Core_bus_reachable_iff (d : ℚ) (f t : Node) :
    (Core.calculate_travel_info d TransportMode.BUS f t).is_reachable = true ↔
    ¬(f.city_id = t.city_id ∧ f.type ≠ NodeType.LANDMARK ∧ f.type = t.type) := by
  by_cases h1 : f.city_id = t.city_id <;> by_cases h2 : f.type = t.type <;>
    by_cases h3 : f.type = NodeType.LANDMARK <;> by_cases h4 : t.type = NodeType.LANDMARK <;>
      simp [Core.calculate_travel_info, h1, h2, h3, h4] <;> split_ifs <;> simp_all

/-- In src/unnamed/part_005, a Driving edge is reachable exactly when the
endpoints are Landmarks of different cities, or same-city nodes of different
types. -/
theorem Legacy_driving_reachable_iff (d : ℚ) (f t : Node) :
    (Legacy.calculate_travel_info d TransportMode.DRIVING f t).is_reachable = true ↔
    ((f.city_id ≠ t.city_id ∧ f.type = NodeType.LANDMARK ∧ t.type = NodeType.LANDMARK)
      ∨ (f.city_id = t.city_id ∧ f.type ≠ t.type)) := by
  by_cases h1 : f.city_id = t.city_id <;> by_cases h2 : f.type = t.type <;>
    by_cases h3 : f.type = NodeType.LANDMARK <;> by_cases h4 : t.type = NodeType.LANDMARK <;>
      simp [Legacy.calculate_travel_info, h1, h2, h3, h4] <;> split_ifs <;> simp_all

/-- Same rule for Bus in src/unnamed/part_005. -/
theorem Legacy_bus_reachable_iff (d : ℚ) (f t : Node) :
    (Legacy.calculate_travel_info d TransportMode.BUS f t).is_reachable = true ↔
    ((f.city_id ≠ t.city_id ∧ f.type = NodeType.LANDMARK ∧ t.type = NodeType.LANDMARK)
      ∨ (f.city_id = t.city_id ∧ f.type ≠ t.type)) := by
  by_cases h1 : f.city_id = t.city_id <;> by_cases h2 : f.type = t.type <;>
    by_cases h3 : f.type = NodeType.LANDMARK <;> by_cases h4 : t.type = NodeType.LANDMARK <;>
      simp [Legacy.calculate_travel_info, h1, h2, h3, h4] <;> split_ifs <;> simp_all

/-- In src/unnamed/part_005, a reachable Bus trip costs `0.2` yuan/km (both
intra- and inter-city), times `1.5` beyond 300 km. -/
theorem Legacy_bus_cost_eq (d : ℚ) (f t : Node)
    (h : (Legacy.calculate_travel_info d TransportMode.BUS f t).is_reachable = true) :
    (Legacy.calculate_travel_info d TransportMode.BUS f t).cost_yuan =
      if 300 < d then d * 0.2 * 1.5 else d * 0.2 := by
  by_cases h1 : f.city_id = t.city_id <;> by_cases h2 : f.type = t.type <;>
    by_cases h3 : f.type = NodeType.LANDMARK <;> by_cases h4 : t.type = NodeType.LANDMARK <;>
      simp_all [Legacy.calculate_travel_info, Legacy.transport_attrs] <;>
        split_ifs <;> simp

/-- In src/unnamed/part_005, no mode other than Bus is ever surcharged: a
reachable trip costs the per-km rate of the mode times the distance. -/
theorem Legacy_other_cost_eq (d : ℚ) (f t : Node) (m : TransportMode)
    (hm : m ≠ TransportMode.BUS)
    (h : (Legacy.calculate_travel_info d m f t).is_reachable = true) :
    (Legacy.calculate_travel_info d m f t).cost_yuan = d * (Legacy.transport_attrs m).2 := by
  cases m <;> try exact absurd rfl hm
  all_goals
    by_cases h1 : f.city_id = t.city_id <;> by_cases h2 : f.type = t.type <;>
      by_cases h3 : f.type = NodeType.LANDMARK <;> by_cases h4 : t.type = NodeType.LANDMARK <;>
        simp_all [Legacy.calculate_travel_info, Legacy.transport_attrs] <;>
          split_ifs at h ⊢ <;> simp_all

/-- In src/src/pathfinding.c, a reachable trip always costs the applicable
per-km rate times the distance — in particular no Bus surcharge is applied at
any distance. -/
theorem Core_cost_eq (d : ℚ) (f t : Node) (m : TransportMode)
    (h : (Core.calculate_travel_info d m f t).is_reachable = true) :
    (Core.calculate_travel_info d m f t).cost_yuan =
      if f.city_id = t.city_id then
        (if m = TransportMode.DRIVING then d * 1.5 else d * 0.3)
      else d * (Core.transport_attrs m).2 := by
  cases m <;>
    by_cases h1 : f.city_id = t.city_id <;> by_cases h2 : f.type = t.type <;>
      by_cases h3 : f.type = NodeType.LANDMARK <;> by_cases h4 : t.type = NodeType.LANDMARK <;>
        simp_all [Core.calculate_travel_info, Core.transport_attrs] <;>
          split_ifs at h ⊢ <;> simp_all

/-! ## Claim C1 -/

/-- C1 is false on src/src/pathfinding.c: node A (Landmark of city 1) and
node C (Airport of city 2) are in different cities and are not both
Landmarks, so the claim says Driving is not reachable — yet
`calculate_travel_info` marks the edge reachable, and in the §8 scenario with
B removed `find_shortest_path(A, C)` returns a one-segment Driving route
rather than `NotFound`. -/
theorem C1_counterexample :
    scenA.city_id ≠ scenC.city_id
    ∧ ¬(scenA.type = NodeType.LANDMARK ∧ scenC.type = NodeType.LANDMARK)
    ∧ (Core.calculate_travel_info 1000 TransportMode.DRIVING scenA scenC).is_reachable = true
    ∧ Core.find_shortest_path scenDist scenNet 0 1 1 0 =
        some { segments := [{ from_node_id := 0, to_node_id := 1,
                              mode := TransportMode.DRIVING, distance_km := 1000,
                              time_hours := 50 / 3, cost_yuan := 800 }],
               segment_count := 1, total_time := 50 / 3, total_cost := 800,
               total_distance := 1000 } :=
  ⟨by decide, by decide, by decide, by decide⟩

/-- C1 amended: in src/src/pathfinding.c a Driving/Bus edge is reachable
exactly when it is NOT a same-city pair with equal non-Landmark types (so all
inter-city pairs and same-city Landmark-Landmark pairs are reachable); the
claimed rule is exactly the one implemented by the older variant
src/unnamed/part_005; and consequently the §8 scenario query returns a route,
not `NotFound`. -/
theorem C1_amended_rules (d : ℚ) (f t : Node) (m : TransportMode)
    (hm : m = TransportMode.DRIVING ∨ m = TransportMode.BUS) :
    ((Core.calculate_travel_info d m f t).is_reachable = true ↔
      ¬(f.city_id = t.city_id ∧ f.type ≠ NodeType.LANDMARK ∧ f.type = t.type))
    ∧ ((Legacy.calculate_travel_info d m f t).is_reachable = true ↔
      ((f.city_id ≠ t.city_id ∧ f.type = NodeType.LANDMARK ∧ t.type = NodeType.LANDMARK)
        ∨ (f.city_id = t.city_id ∧ f.type ≠ t.type)))
    ∧ Core.find_shortest_path scenDist scenNet 0 1 1 0 ≠ none := by
  rcases hm with rfl | rfl
  · exact ⟨Core_driving_reachable_iff d f t, Legacy_driving_reachable_iff d f t, by decide⟩
  · exact ⟨Core_bus_reachable_iff d f t, Legacy_bus_reachable_iff d f t, by decide⟩

/-- C1 amended, instantiated at the scenario pair with Driving. -/
theorem C1_amended_witness :
    ((Core.calculate_travel_info 1000 TransportMode.DRIVING scenA scenC).is_reachable = true ↔
      ¬(scenA.city_id = scenC.city_id ∧ scenA.type ≠ NodeType.LANDMARK
        ∧ scenA.type = scenC.type))
    ∧ ((Legacy.calculate_travel_info 1000 TransportMode.DRIVING scenA scenC).is_reachable = true ↔
      ((scenA.city_id ≠ scenC.city_id ∧ scenA.type = NodeType.LANDMARK
        ∧ scenC.type = NodeType.LANDMARK)
        ∨ (scenA.city_id = scenC.city_id ∧ scenA.type ≠ scenC.type)))
    ∧ Core.find_shortest_path scenDist scenNet 0 1 1 0 ≠ none :=
  C1_amended_rules 1000 scenA scenC TransportMode.DRIVING (Or.inl rfl)

/-! ## Claim C2 -/

/-- C2 is false on src/src/pathfinding.c: the Bus edge A→C (inter-city, per-km
rate `0.2`) at 400 km costs `80`, not the surcharged `400 · 0.2 · 1.5 = 120`
the claim requires. -/
theorem C2_counterexample :
    (Core.calculate_travel_info 400 TransportMode.BUS scenA scenC).is_reachable = true
    ∧ (300 : ℚ) < 400
    ∧ (Core.calculate_travel_info 400 TransportMode.BUS scenA scenC).cost_yuan = 400 * 0.2
    ∧ (Core.calculate_travel_info 400 TransportMode.BUS scenA scenC).cost_yuan
        ≠ 400 * 0.2 * 1.5 :=
  ⟨by decide, by decide, by decide, by decide⟩

/-- C2 amended: the `×1.5` Bus surcharge beyond 300 km exists only in the
older variant src/unnamed/part_005 (where it applies to Bus exactly as the
claim states, and to no other mode); src/src/pathfinding.c applies no
surcharge at all — every reachable trip there costs the applicable per-km
rate times the distance, at any distance. -/
theorem C2_amended_costs (d : ℚ) (f t : Node) (m : TransportMode) :
    ((Legacy.calculate_travel_info d TransportMode.BUS f t).is_reachable = true →
      (Legacy.calculate_travel_info d TransportMode.BUS f t).cost_yuan =
        if 300 < d then d * 0.2 * 1.5 else d * 0.2)
    ∧ (m ≠ TransportMode.BUS →
      (Legacy.calculate_travel_info d m f t).is_reachable = true →
      (Legacy.calculate_travel_info d m f t).cost_yuan = d * (Legacy.transport_attrs m).2)
    ∧ ((Core.calculate_travel_info d m f t).is_reachable = true →
      (Core.calculate_travel_info d m f t).cost_yuan =
        if f.city_id = t.city_id then
          (if m = TransportMode.DRIVING then d * 1.5 else d * 0.3)
        else d * (Core.transport_attrs m).2) :=
  ⟨Legacy_bus_cost_eq d f t, Legacy_other_cost_eq d f t m, Core_cost_eq d f t m⟩

/-- C2 amended, instantiated: a 400 km inter-city Landmark pair costs
`400 · 0.2 · 1.5 = 120` by Bus in the legacy variant, `400 · 0.8` by Driving
there, and `400 · 0.8` by Driving in the core variant. -/
theorem C2_amended_witness :
    (Legacy.calculate_travel_info 400 TransportMode.BUS nodeP nodeQ).cost_yuan =
      (if (300 : ℚ) < 400 then 400 * 0.2 * 1.5 else 400 * 0.2)
    ∧ (Legacy.calculate_travel_info 400 TransportMode.DRIVING nodeP nodeQ).cost_yuan =
      400 * (Legacy.transport_attrs TransportMode.DRIVING).2
    ∧ (Core.calculate_travel_info 400 TransportMode.DRIVING nodeP nodeQ).cost_yuan =
      (if nodeP.city_id = nodeQ.city_id then
        (if TransportMode.DRIVING = TransportMode.DRIVING then (400 : ℚ) * 1.5 else 400 * 0.3)
      else 400 * (Core.transport_attrs TransportMode.DRIVING).2) :=
  ⟨(C2_amended_costs 400 nodeP nodeQ TransportMode.DRIVING).1 (by decide),
   (C2_amended_costs 400 nodeP nodeQ TransportMode.DRIVING).2.1 (by decide) (by decide),
   (C2_amended_costs 400 nodeP nodeQ TransportMode.DRIVING).2.2 (by decide)⟩

/-! ## Claim C4 -/

/-- C4: `solve_tsp` rejects every request with more than 10 nodes before any
computation, returning the absence-of-result value (never a computed route,
never a truncation to 10 nodes), whatever the graph, the id list and the
weights. -/
theorem C4_too_large (calcDist : ℚ → ℚ → ℚ → ℚ → ℚ) (network : TrafficNetwork)
    (node_ids : List ℤ) (num_nodes : ℤ) (time_weight cost_weight : ℚ)
    (h : 10 < num_nodes) :
    Core.solve_tsp calcDist network node_ids num_nodes time_weight cost_weight = none := by
  unfold Core.solve_tsp
  rw [if_neg (by omega), if_pos (by omega)]

/-- C4 at the concrete spec input `n = 11`. -/
theorem C4_witness :
    (10 : ℤ) < 11
    ∧ Core.solve_tsp scenDist scenNet [0, 1, 0, 1, 0, 1, 0, 1, 0, 1, 0] 11 1 1 = none :=
  ⟨by norm_num, C4_too_large scenDist scenNet [0, 1, 0, 1, 0, 1, 0, 1, 0, 1, 0] 11 1 1
    (by norm_num)⟩

/-! ## Claim C8 -/

/-- C8: `stitch_paths` with a `NULL` leg or a segmentless leg leaves the main
path unchanged; with a nonempty leg it prepends the leg's segments in front of
the main path's and adds each cached total and the segment count.  (Disposal
of the leg is a memory-management effect with no observable value in this
embedding.) -/
theorem C8_stitch (main_path leg : RoutePath) :
    Core.stitch_paths main_path none = main_path
    ∧ (leg.segments = [] → Core.stitch_paths main_path (some leg) = main_path)
    ∧ (leg.segments ≠ [] →
        (Core.stitch_paths main_path (some leg)).segments
            = leg.segments ++ main_path.segments
        ∧ (Core.stitch_paths main_path (some leg)).segment_count
            = main_path.segment_count + leg.segment_count
        ∧ (Core.stitch_paths main_path (some leg)).total_time
            = main_path.total_time + leg.total_time
        ∧ (Core.stitch_paths main_path (some leg)).total_cost
            = main_path.total_cost + leg.total_cost
        ∧ (Core.stitch_paths main_path (some leg)).total_distance
            = main_path.total_distance + leg.total_distance) := by
  refine ⟨rfl, fun h => ?_, fun h => ?_⟩ <;> simp [Core.stitch_paths, h]

/-- C8 instantiated: stitching a one-segment leg onto the empty route. -/
theorem C8_witness :
    (Core.stitch_paths RoutePath.empty
      (some (RoutePath.mk [PathSegment.mk 0 1 TransportMode.DRIVING 5 1 7] 1 1 7 5))).segments
      = [PathSegment.mk 0 1 TransportMode.DRIVING 5 1 7] ++ RoutePath.empty.segments
    ∧ (Core.stitch_paths RoutePath.empty
      (some (RoutePath.mk [PathSegment.mk 0 1 TransportMode.DRIVING 5 1 7] 1 1 7 5))).total_cost
      = RoutePath.empty.total_cost
        + (RoutePath.mk [PathSegment.mk 0 1 TransportMode.DRIVING 5 1 7] 1 1 7 5).total_cost :=
  ⟨((C8_stitch RoutePath.empty
      (RoutePath.mk [PathSegment.mk 0 1 TransportMode.DRIVING 5 1 7] 1 1 7 5)).2.2
      (by simp)).1,
   ((C8_stitch RoutePath.empty
      (RoutePath.mk [PathSegment.mk 0 1 TransportMode.DRIVING 5 1 7] 1 1 7 5)).2.2
      (by simp)).2.2.2.1⟩

/-! ## Claim C9 -/

/-- The haversine intermediate `a` vanishes on identical coordinates. -/
theorem haversine_a_self (lat lon : ℝ) : haversine_a lat lon lat lon = 0 := by
  simp [haversine_a]

/-- The haversine intermediate `a` is symmetric in the two points. -/
theorem haversine_a_symm (lat1 lon1 lat2 lon2 : ℝ) :
    haversine_a lat1 lon1 lat2 lon2 = haversine_a lat2 lon2 lat1 lon1 := by
  unfold haversine_a
  have e1 : (deg_to_rad lat1 - deg_to_rad lat2) / 2
      = -((deg_to_rad lat2 - deg_to_rad lat1) / 2) := by ring
  have e2 : (deg_to_rad lon1 - deg_to_rad lon2) / 2
      = -((deg_to_rad lon2 - deg_to_rad lon1) / 2) := by ring
  rw [e1, e2, Real.sin_neg, Real.sin_neg]
  ring

/-- C9: `calculate_distance` returns `0` on identical coordinate pairs and is
symmetric in its two coordinate pairs. -/
theorem C9_distance_properties :
    (∀ lat lon : ℝ, calculate_distance lat lon lat lon = 0)
    ∧ (∀ lat1 lon1 lat2 lon2 : ℝ,
        calculate_distance lat1 lon1 lat2 lon2 = calculate_distance lat2 lon2 lat1 lon1) := by
  constructor
  · intro lat lon
    rw [calculate_distance, haversine_a_self]
    rw [show (1 : ℝ) - 0 = 1 by norm_num, Real.sqrt_zero, Real.sqrt_one]
    rw [atan2, if_pos (by norm_num : (0 : ℝ) < 1)]
    simp [Real.arctan_zero]
  · intro lat1 lon1 lat2 lon2
    rw [calculate_distance, calculate_distance, haversine_a_symm]

/-! ## The minimum-selection scan -/

namespace Core

/-- Full characterisation of the fold inside `selectMin`, by induction over
the scanned index list. -/
theorem selectMin_fold (s : DijkstraState) (l : List ℕ) (acc : Option ℕ × WithTop ℚ)
    (hs : ∀ u, acc.1 = some u → u ∉ s.visitedL ∧ acc.2 = s.cost u ∧ s.cost u ≠ ⊤)
    (hn : acc.1 = none → acc.2 = ⊤) :
    (∀ u, (l.foldl
        (fun acc j =>
          if j ∉ s.visitedL ∧ s.cost j < acc.2 then ((some j : Option ℕ), s.cost j) else acc)
        acc).1 = some u →
      (u ∈ l ∨ acc.1 = some u) ∧ u ∉ s.visitedL
        ∧ (l.foldl
            (fun acc j =>
              if j ∉ s.visitedL ∧ s.cost j < acc.2 then ((some j : Option ℕ), s.cost j)
              else acc) acc).2 = s.cost u
        ∧ s.cost u ≠ ⊤)
    ∧ ((l.foldl
        (fun acc j =>
          if j ∉ s.visitedL ∧ s.cost j < acc.2 then ((some j : Option ℕ), s.cost j) else acc)
        acc).1 = none → acc.1 = none ∧ ∀ j ∈ l, j ∉ s.visitedL → s.cost j = ⊤)
    ∧ (l.foldl
        (fun acc j =>
          if j ∉ s.visitedL ∧ s.cost j < acc.2 then ((some j : Option ℕ), s.cost j) else acc)
        acc).2 ≤ acc.2
    ∧ (∀ j ∈ l, j ∉ s.visitedL →
      (l.foldl
        (fun acc j =>
          if j ∉ s.visitedL ∧ s.cost j < acc.2 then ((some j : Option ℕ), s.cost j) else acc)
        acc).2 ≤ s.cost j) := by
  induction l generalizing acc with
  | nil =>
    refine ⟨fun u hu => ⟨Or.inr hu, (hs u hu).1, (hs u hu).2.1, (hs u hu).2.2⟩,
      fun h => ⟨h, by simp⟩, le_refl _, by simp⟩
  | cons j rest ih =>
    by_cases hcond : j ∉ s.visitedL ∧ s.cost j < acc.2
    · have hstep : (List.foldl
          (fun acc j =>
            if j ∉ s.visitedL ∧ s.cost j < acc.2 then ((some j : Option ℕ), s.cost j) else acc)
          acc (j :: rest))
          = (List.foldl
            (fun acc j =>
              if j ∉ s.visitedL ∧ s.cost j < acc.2 then ((some j : Option ℕ), s.cost j) else acc)
            ((some j : Option ℕ), s.cost j) rest) := by
        simp [List.foldl_cons, if_pos hcond]
      have hacc2 : ∀ u, ((some j : Option ℕ), s.cost j).1 = some u →
          u ∉ s.visitedL ∧ ((some j : Option ℕ), s.cost j).2 = s.cost u ∧ s.cost u ≠ ⊤ := by
        intro u hu
        have : j = u := by simpa using hu
        subst this
        exact ⟨hcond.1, rfl, ne_top_of_lt hcond.2⟩
      have h2 := ih ((some j : Option ℕ), s.cost j) hacc2 (by intro h; simp at h)
      rw [hstep]
      refine ⟨?_, ?_, ?_, ?_⟩
      · intro u hu
        obtain ⟨hmem, hnv, hval, hnt⟩ := h2.1 u hu
        refine ⟨?_, hnv, hval, hnt⟩
        rcases hmem with h | h
        · exact Or.inl (List.mem_cons_of_mem _ h)
        · left
          have : j = u := by simpa using h
          subst this
          exact List.mem_cons_self _ _
      · intro h
        exact absurd (h2.2.1 h).1 (by simp)
      · exact le_trans h2.2.2.1 (le_of_lt hcond.2)
      · intro i hi hvi
        rcases List.mem_cons.mp hi with rfl | hi2
        · exact le_of_le_of_eq h2.2.2.1 rfl
        · exact h2.2.2.2 i hi2 hvi
    · have hstep : (List.foldl
          (fun acc j =>
            if j ∉ s.visitedL ∧ s.cost j < acc.2 then ((some j : Option ℕ), s.cost j) else acc)
          acc (j :: rest))
          = (List.foldl
            (fun acc j =>
              if j ∉ s.visitedL ∧ s.cost j < acc.2 then ((some j : Option ℕ), s.cost j) else acc)
            acc rest) := by
        simp [List.foldl_cons, if_neg hcond]
      have h2 := ih acc hs hn
      rw [hstep]
      refine ⟨?_, ?_, h2.2.2.1, ?_⟩
      · intro u hu
        obtain ⟨hmem, hnv, hval, hnt⟩ := h2.1 u hu
        exact ⟨hmem.imp (List.mem_cons_of_mem _) id, hnv, hval, hnt⟩
      · intro h
        obtain ⟨h0, hall⟩ := h2.2.1 h
        refine ⟨h0, ?_⟩
        intro i hi hvi
        rcases List.mem_cons.mp hi with rfl | hi2
        · by_contra hne
          exact hcond ⟨hvi, (hn h0) ▸ lt_top_iff_ne_top.mpr hne⟩
        · exact hall i hi2 hvi
      · intro i hi hvi
        rcases List.mem_cons.mp hi with rfl | hi2
        · have hle : acc.2 ≤ s.cost i := by
            by_contra hlt
            exact hcond ⟨hvi, lt_of_not_le hlt⟩
          exact le_trans h2.2.2.1 hle
        · exact h2.2.2.2 i hi2 hvi
  
/-- A successful scan returns an unvisited in-range node of minimal finite
cost. -/
theorem selectMin_some (s : DijkstraState) (node_count u : ℕ)
    (h : selectMin s node_count = some u) :
    u < node_count ∧ u ∉ s.visitedL ∧ s.cost u ≠ ⊤
      ∧ ∀ j, j < node_count → j ∉ s.visitedL → s.cost u ≤ s.cost j := by
  have hmain := selectMin_fold s (List.range node_count) ((none : Option ℕ), (⊤ : WithTop ℚ))
    (by intro u hu; simp at hu) (fun _ => rfl)
  rw [selectMin] at h
  obtain ⟨hmem, hnv, hval, hnt⟩ := hmain.1 u h
  refine ⟨?_, hnv, hnt, ?_⟩
  · rcases hmem with h1 | h1
    · exact List.mem_range.mp h1
    · simp at h1
  · intro j hj hvj
    exact le_of_eq_of_le hval.symm (hmain.2.2.2 j (List.mem_range.mpr hj) hvj)

/-- A failed scan means every unvisited in-range node has infinite cost. -/
theorem selectMin_none (s : DijkstraState) (node_count : ℕ)
    (h : selectMin s node_count = none) :
    ∀ j, j < node_count → j ∉ s.visitedL → s.cost j = ⊤ := by
  have hmain := selectMin_fold s (List.range node_count) ((none : Option ℕ), (⊤ : WithTop ℚ))
    (by intro u hu; simp at hu) (fun _ => rfl)
  rw [selectMin] at h
  intro j hj hvj
  exact (hmain.2.1 h).2 j (List.mem_range.mpr hj) hvj

end Core

/-- On the initial state the scan returns the start node (the only finite
cost). -/
theorem Core_selectMin_init (st n : ℕ) (h : st < n) :
    Core.selectMin (Core.initState st) n = some st := by
  cases hsel : Core.selectMin (Core.initState st) n with
  | none =>
    have := Core.selectMin_none _ _ hsel st h (by simp [Core.initState])
    simp [Core.initState] at this
  | some u =>
    obtain ⟨hu, _, hnt, _⟩ := Core.selectMin_some _ _ _ hsel
    have : u = st := by
      by_contra hne
      simp [Core.initState, hne] at hnt
    rw [this]

/-- When source and target coincide the main loop stops at once. -/
theorem Core_dijkstraLoop_self (inp : Core.SPInput) (st n fuel : ℕ) (h : st < n) :
    Core.dijkstraLoop inp st n fuel (Core.initState st) = Core.initState st := by
  cases fuel with
  | zero => rfl
  | succ k =>
    simp only [Core.dijkstraLoop, Core_selectMin_init st n h, if_true]

/-- Reconstruction from the start node itself builds nothing. -/
theorem Core_buildLoop_self (inp : Core.SPInput) (st : ℕ) (s : Core.DijkstraState)
    (fuel : ℕ) (path : RoutePath) :
    Core.buildLoop inp st s fuel st path = path := by
  cases fuel with
  | zero => rfl
  | succ k => simp only [Core.buildLoop, if_true]

/-! ## Claim C5 -/

/-- C5: for every graph, every in-range id `a` and arbitrary weights (zero
included), `find_shortest_path(g, a, a, tw, cw)` returns the empty route with
zero totals, never `NotFound`. -/
theorem C5_self_route (calcDist : ℚ → ℚ → ℚ → ℚ → ℚ) (network : TrafficNetwork)
    (a : ℤ) (tw cw : ℚ) (h0 : 0 ≤ a)
    (h1 : a < (traffic_network_get_node_count network : ℤ)) :
    Core.find_shortest_path calcDist network a a tw cw = some RoutePath.empty := by
  have hn : a.toNat < traffic_network_get_node_count network := by omega
  simp only [Core.find_shortest_path]
  rw [if_neg (by omega)]
  rw [Core_dijkstraLoop_self ⟨calcDist, network, tw, cw⟩ a.toNat _ _ hn]
  rw [if_neg (by simp)]
  rw [Core_buildLoop_self]

/-- C5 at a concrete one-node network with zero weights. -/
theorem C5_witness :
    (0 : ℤ) ≤ 0 ∧ (0 : ℤ) < (traffic_network_get_node_count oneNet : ℤ)
    ∧ Core.find_shortest_path scenDist oneNet 0 0 0 0 = some RoutePath.empty :=
  ⟨le_refl 0, by decide,
   C5_self_route scenDist oneNet 0 0 0 (le_refl 0) (by decide)⟩

/-! ## Shape of the relaxation steps -/

namespace Core

theorem RelaxTrans.refl (inp : SPInput) (n u : ℕ) (s : DijkstraState) :
    RelaxTrans inp n u s s :=
  ⟨rfl, rfl, fun _ => le_refl _, fun _ => Or.inl ⟨rfl, rfl⟩⟩

theorem RelaxTrans.trans {inp : SPInput} {n u : ℕ} {s1 s2 s3 : DijkstraState}
    (h12 : RelaxTrans inp n u s1 s2) (h23 : RelaxTrans inp n u s2 s3) :
    RelaxTrans inp n u s1 s3 := by
  obtain ⟨hv12, hu12, hm12, hj12⟩ := h12
  obtain ⟨hv23, hu23, hm23, hj23⟩ := h23
  refine ⟨hv23.trans hv12, hu23.trans hu12, fun j => (hm23 j).trans (hm12 j), fun j => ?_⟩
  rcases hj23 j with ⟨hc, hp⟩ | ⟨hnv, hjn, hlt, m, hd, hr, hceq, hpeq⟩
  · rcases hj12 j with ⟨hc2, hp2⟩ | ⟨hnv2, hjn2, hlt2, m, hd, hr, hceq, hpeq⟩
    · exact Or.inl ⟨hc.trans hc2, hp.trans hp2⟩
    · exact Or.inr ⟨hnv2, hjn2, by rw [hc]; exact hlt2, m, hd, hr, hc.trans hceq, hp.trans hpeq⟩
  · rw [hv12] at hnv
    exact Or.inr ⟨hnv, hjn, lt_of_lt_of_le hlt (hm12 j), m, hd, hr, by rw [hceq, hu12], hpeq⟩

end Core

namespace Core

theorem relaxMode_trans (inp : SPInput) (n u v : ℕ) (s : DijkstraState) (m : TransportMode)
    (hu : u ∈ s.visitedL) (hv : v ∉ s.visitedL) (hvn : v < n)
    (hd : 0.1 < nodeDist inp u v) :
    RelaxTrans inp n u s (relaxMode inp u v s m) := by
  have hne : u ≠ v := fun h => hv (h ▸ hu)
  simp only [relaxMode]
  split_ifs with h1 h2
  · refine ⟨rfl, ?_, fun j => ?_, fun j => ?_⟩
    · simp only [if_neg hne]
    · by_cases hj : j = v
      · subst hj
        simp only [if_pos rfl]
        exact le_of_lt h2
      · simp only [if_neg hj]
        exact le_refl _
    · by_cases hj : j = v
      · subst hj
        exact Or.inr ⟨hv, hvn, by simpa using h2, m, hd, h1, by simp [stepWeight], by simp⟩
      · exact Or.inl ⟨by simp [hj], by simp [hj]⟩
  · exact RelaxTrans.refl inp n u s
  · exact RelaxTrans.refl inp n u s

theorem relaxMode_fold_trans (inp : SPInput) (n u v : ℕ) (L : List TransportMode)
    (s : DijkstraState) (hu : u ∈ s.visitedL) (hv : v ∉ s.visitedL) (hvn : v < n)
    (hd : 0.1 < nodeDist inp u v) :
    RelaxTrans inp n u s (L.foldl (relaxMode inp u v) s) := by
  induction L generalizing s with
  | nil => exact RelaxTrans.refl inp n u s
  | cons m rest ih =>
    have t1 := relaxMode_trans inp n u v s m hu hv hvn hd
    have hvis := t1.1
    rw [List.foldl_cons]
    exact RelaxTrans.trans t1 (ih _ (hvis ▸ hu) (hvis ▸ hv))

theorem relaxNode_trans (inp : SPInput) (n u : ℕ) (s : DijkstraState) (v : ℕ)
    (hu : u ∈ s.visitedL) (hvn : v < n) :
    RelaxTrans inp n u s (relaxNode inp u s v) := by
  rw [relaxNode]
  split_ifs with h1 h2
  · exact RelaxTrans.refl inp n u s
  · exact RelaxTrans.refl inp n u s
  · exact relaxMode_fold_trans inp n u v allTransportModes s hu h1 hvn (lt_of_not_le h2)

theorem relaxRange_trans (inp : SPInput) (n u : ℕ) (l : List ℕ) (s : DijkstraState)
    (hl : ∀ j ∈ l, j < n) (hu : u ∈ s.visitedL) :
    RelaxTrans inp n u s (l.foldl (relaxNode inp u) s) := by
  induction l generalizing s with
  | nil => exact RelaxTrans.refl inp n u s
  | cons v rest ih =>
    have t1 := relaxNode_trans inp n u s v hu (hl v (List.mem_cons_self _ _))
    rw [List.foldl_cons]
    exact RelaxTrans.trans t1
      (ih _ (fun j hj => hl j (List.mem_cons_of_mem _ hj)) (t1.1 ▸ hu))

theorem relaxMode_post (inp : SPInput) (u v : ℕ) (s : DijkstraState) (m : TransportMode)
    (hr : (travelInfoOf inp u v m).is_reachable = true) :
    (relaxMode inp u v s m).cost v
      ≤ s.cost u + ((stepWeight inp u v m : ℚ) : WithTop ℚ) := by
  simp only [relaxMode, hr, if_true]
  split_ifs with h2
  · simp [stepWeight]
  · exact le_of_not_lt (by simpa [stepWeight] using h2)

theorem relaxMode_fold_post (inp : SPInput) (n u v : ℕ) (L : List TransportMode)
    (m : TransportMode) (hm : m ∈ L) (s : DijkstraState)
    (hu : u ∈ s.visitedL) (hv : v ∉ s.visitedL) (hvn : v < n)
    (hd : 0.1 < nodeDist inp u v) (hr : (travelInfoOf inp u v m).is_reachable = true) :
    (L.foldl (relaxMode inp u v) s).cost v
      ≤ s.cost u + ((stepWeight inp u v m : ℚ) : WithTop ℚ) := by
  induction L generalizing s with
  | nil => exact absurd hm (List.not_mem_nil m)
  | cons mh rest ih =>
    rw [List.foldl_cons]
    have t1 := relaxMode_trans inp n u v s mh hu hv hvn hd
    rcases List.mem_cons.mp hm with rfl | hm2
    · have hpost := relaxMode_post inp u v s m hr
      have t2 := relaxMode_fold_trans inp n u v rest _ (t1.1 ▸ hu) (t1.1 ▸ hv) hvn hd
      calc (rest.foldl (relaxMode inp u v) (relaxMode inp u v s m)).cost v
          ≤ (relaxMode inp u v s m).cost v := t2.2.2.1 v
        _ ≤ s.cost u + ((stepWeight inp u v m : ℚ) : WithTop ℚ) := hpost
    · have := ih hm2 _ (t1.1 ▸ hu) (t1.1 ▸ hv)
      rw [t1.2.1] at this
      exact this

theorem relaxNode_post (inp : SPInput) (n u : ℕ) (s : DijkstraState) (v : ℕ)
    (m : TransportMode) (hu : u ∈ s.visitedL) (hv : v ∉ s.visitedL) (hvn : v < n)
    (hd : 0.1 < nodeDist inp u v) (hr : (travelInfoOf inp u v m).is_reachable = true) :
    (relaxNode inp u s v).cost v
      ≤ s.cost u + ((stepWeight inp u v m : ℚ) : WithTop ℚ) := by
  rw [relaxNode, if_neg hv, if_neg (not_le_of_lt hd)]
  refine relaxMode_fold_post inp n u v allTransportModes m ?_ s hu hv hvn hd hr
  cases m <;> simp [allTransportModes]

theorem relaxRange_post (inp : SPInput) (n u : ℕ) (l : List ℕ) (s : DijkstraState)
    (v : ℕ) (m : TransportMode) (hl : ∀ j ∈ l, j < n) (hvl : v ∈ l)
    (hu : u ∈ s.visitedL) (hv : v ∉ s.visitedL)
    (hd : 0.1 < nodeDist inp u v) (hr : (travelInfoOf inp u v m).is_reachable = true) :
    (l.foldl (relaxNode inp u) s).cost v
      ≤ s.cost u + ((stepWeight inp u v m : ℚ) : WithTop ℚ) := by
  induction l generalizing s with
  | nil => exact absurd hvl (List.not_mem_nil v)
  | cons j rest ih =>
    rw [List.foldl_cons]
    have hjn := hl j (List.mem_cons_self _ _)
    have t1 := relaxNode_trans inp n u s j hu hjn
    rcases List.mem_cons.mp hvl with rfl | hv2
    · have hpost := relaxNode_post inp n u s v m hu hv (hl v (List.mem_cons_self _ _)) hd hr
      have t2 := relaxRange_trans inp n u rest _
        (fun i hi => hl i (List.mem_cons_of_mem _ hi)) (t1.1 ▸ hu)
      calc (rest.foldl (relaxNode inp u) (relaxNode inp u s v)).cost v
          ≤ (relaxNode inp u s v).cost v := t2.2.2.1 v
        _ ≤ s.cost u + ((stepWeight inp u v m : ℚ) : WithTop ℚ) := hpost
    · have := ih _ (fun i hi => hl i (List.mem_cons_of_mem _ hi)) hv2 (t1.1 ▸ hu) (t1.1 ▸ hv)
      rw [t1.2.1] at this
      exact this

end Core

namespace Core

theorem cti_nonneg (d : ℚ) (m : TransportMode) (f t : Node) (hd : 0 ≤ d) :
    0 ≤ (calculate_travel_info d m f t).time_hours
      ∧ 0 ≤ (calculate_travel_info d m f t).cost_yuan := by
  cases m <;> simp only [calculate_travel_info, transport_attrs] <;> split_ifs <;>
    constructor <;> positivity

theorem stepWeight_nonneg (inp : SPInput) (u v : ℕ) (m : TransportMode)
    (htw : 0 ≤ inp.time_weight) (hcw : 0 ≤ inp.cost_weight)
    (hd : 0 ≤ nodeDist inp u v) :
    0 ≤ stepWeight inp u v m := by
  have h := cti_nonneg (nodeDist inp u v) m
    (traffic_network_get_node_by_id inp.network u)
    (traffic_network_get_node_by_id inp.network v) hd
  have hT : (0 : ℚ) ≤ MAX_TIME_ESTIMATE := by
    norm_num [MAX_TIME_ESTIMATE, MAX_DIST_ESTIMATE]
  have hC : (0 : ℚ) ≤ MAX_COST_ESTIMATE := by
    norm_num [MAX_COST_ESTIMATE, MAX_DIST_ESTIMATE]
  simp only [stepWeight, weighted_cost, travelInfoOf]
  exact add_nonneg (mul_nonneg (div_nonneg h.1 hT) htw) (mul_nonneg (div_nonneg h.2 hC) hcw)

/-- Any relaxation-shaped transition out of a visited node preserves the
weight-sign-free invariants. -/
theorem DInvB_relax (inp : SPInput) (n start_n u : ℕ) (s1 s2 : DijkstraState)
    (hinv : DInvB inp n start_n s1) (ht : RelaxTrans inp n u s1 s2)
    (hu : u ∈ s1.visitedL) (hun : u < n) : DInvB inp n start_n s2 := by
  obtain ⟨hveq, hcu, hmono, hupd⟩ := ht
  have hfrozen : ∀ x ∈ s1.visitedL, s2.cost x = s1.cost x ∧ s2.pred x = s1.pred x := by
    intro x hx
    rcases hupd x with h | ⟨hnv, _, _, _⟩
    · exact h
    · exact absurd hx hnv
  refine ⟨hveq ▸ hinv.nodup, ?_, ?_, ?_, ?_, ?_⟩
  · intro x hx
    exact hinv.vlt x (hveq ▸ hx)
  · intro x hx
    rw [(hfrozen x (hveq ▸ hx)).1]
    exact hinv.visitedFinite x (hveq ▸ hx)
  · intro v
    rcases hupd v with ⟨hc, hp⟩ | ⟨hnv, hjn, hlt, m, hd, hr, hceq, hpeq⟩
    · rw [hc, hp]
      exact hinv.finiteIff v
    · constructor
      · intro _
        right
        rw [hpeq]
        exact Option.some_ne_none _
      · intro _
        rw [hceq]
        exact WithTop.add_ne_top.mpr ⟨hinv.visitedFinite u hu, WithTop.coe_ne_top⟩
  · intro v u2 m hp
    rcases hupd v with ⟨hc, hp2⟩ | ⟨hnv, hjn, hlt, m0, hd, hr, hceq, hpeq⟩
    · rw [hp2] at hp
      obtain ⟨h1, h2, h3, h4, h5, h6⟩ := hinv.predSpec v u2 m hp
      exact ⟨h1, h2, h3, h4, hveq ▸ h5, by rw [hc, (hfrozen u2 h5).1]; exact h6⟩
    · rw [hpeq] at hp
      simp only [Option.some.injEq, Prod.mk.injEq] at hp
      obtain ⟨h7, h8⟩ := hp
      subst h7
      subst h8
      exact ⟨hun, hjn, hd, hr, hveq ▸ hu, by rw [hceq, hcu]⟩
  · intro pre v suf hsplit u2 m hp
    have hvmem : v ∈ s1.visitedL := by
      rw [← hveq, hsplit]
      exact List.mem_append.mpr (Or.inr (List.mem_cons_self _ _))
    rw [(hfrozen v hvmem).2] at hp
    exact hinv.predOrder pre v suf (hveq ▸ hsplit) u2 m hp

/-- Marking the freshly selected node preserves the weight-sign-free
invariants. -/
theorem DInvB_mark (inp : SPInput) (n start_n : ℕ) (s : DijkstraState) (u : ℕ)
    (hinv : DInvB inp n start_n s) (hu_lt : u < n) (hu_nv : u ∉ s.visitedL)
    (hu_fin : s.cost u ≠ ⊤) :
    DInvB inp n start_n { s with visitedL := u :: s.visitedL } := by
  refine ⟨List.nodup_cons.mpr ⟨hu_nv, hinv.nodup⟩, ?_, ?_, hinv.finiteIff, ?_, ?_⟩
  · intro x hx
    rcases List.mem_cons.mp hx with rfl | hx2
    · exact hu_lt
    · exact hinv.vlt x hx2
  · intro x hx
    rcases List.mem_cons.mp hx with rfl | hx2
    · exact hu_fin
    · exact hinv.visitedFinite x hx2
  · intro v u2 m hp
    obtain ⟨h1, h2, h3, h4, h5, h6⟩ := hinv.predSpec v u2 m hp
    exact ⟨h1, h2, h3, h4, List.mem_cons_of_mem _ h5, h6⟩
  · intro pre v suf hsplit u2 m hp
    cases pre with
    | nil =>
      simp only [List.nil_append, List.cons.injEq] at hsplit
      obtain ⟨h1, h2⟩ := hsplit
      subst h1
      subst h2
      obtain ⟨_, _, _, _, h5, _⟩ := hinv.predSpec u u2 m hp
      exact h5
    | cons a pre2 =>
      simp only [List.cons_append, List.cons.injEq] at hsplit
      exact hinv.predOrder pre2 v suf hsplit.2 u2 m hp

/-- One full iteration (select, mark, relax every neighbour) preserves the
weight-sign-free invariants. -/
theorem step_DInvB (inp : SPInput) (n start_n : ℕ) (s : DijkstraState) (u : ℕ)
    (hinv : DInvB inp n start_n s) (hsel : selectMin s n = some u) :
    DInvB inp n start_n
      ((List.range n).foldl (relaxNode inp u) { s with visitedL := u :: s.visitedL }) := by
  obtain ⟨hu_lt, hu_nv, hu_fin, hu_min⟩ := selectMin_some s n u hsel
  have hinv1 := DInvB_mark inp n start_n s u hinv hu_lt hu_nv hu_fin
  have htrans := relaxRange_trans inp n u (List.range n)
    { s with visitedL := u :: s.visitedL }
    (fun j hj => List.mem_range.mp hj) (List.mem_cons_self u s.visitedL)
  exact DInvB_relax inp n start_n u _ _ hinv1 htrans (List.mem_cons_self u s.visitedL) hu_lt

end Core

namespace Core

/-- One full iteration preserves the nonnegative-weight invariants. -/
theorem step_DInvM (inp : SPInput) (n start_n : ℕ) (s : DijkstraState) (u : ℕ)
    (hinv : DInvM inp n start_n s)
    (htw : 0 ≤ inp.time_weight) (hcw : 0 ≤ inp.cost_weight)
    (hsel : selectMin s n = some u) :
    DInvM inp n start_n
      ((List.range n).foldl (relaxNode inp u) { s with visitedL := u :: s.visitedL }) := by
  obtain ⟨hu_lt, hu_nv, hu_fin, hu_min⟩ := selectMin_some s n u hsel
  have htrans := relaxRange_trans inp n u (List.range n)
    { s with visitedL := u :: s.visitedL }
    (fun j hj => List.mem_range.mp hj) (List.mem_cons_self u s.visitedL)
  obtain ⟨hveq, hcu, hmono, hupd⟩ := htrans
  have hfrozen : ∀ x ∈ (u :: s.visitedL),
      ((List.range n).foldl (relaxNode inp u) { s with visitedL := u :: s.visitedL }).cost x
        = s.cost x
      ∧ ((List.range n).foldl (relaxNode inp u)
          { s with visitedL := u :: s.visitedL }).pred x = s.pred x := by
    intro x hx
    rcases hupd x with h | ⟨hnv, _⟩
    · exact h
    · exact absurd hx hnv
  have hwnn : ∀ j m, 0.1 < nodeDist inp u j →
      (0 : WithTop ℚ) ≤ ((stepWeight inp u j m : ℚ) : WithTop ℚ) := by
    intro j m hd
    exact_mod_cast stepWeight_nonneg inp u j m htw hcw (le_trans (by norm_num) (le_of_lt hd))
  refine ⟨step_DInvB inp n start_n s u hinv.toB hsel, ?_, ?_, ?_, ?_, ?_⟩
  · rcases hupd start_n with ⟨hc, _⟩ | ⟨_, _, hlt, m, hd, _, hceq, _⟩
    · rw [hc]; exact hinv.cost0
    · exfalso
      have h0 : (0 : WithTop ℚ) ≤ s.cost u + ((stepWeight inp u start_n m : ℚ) : WithTop ℚ) :=
        add_nonneg (hinv.nonneg u) (hwnn start_n m hd)
      have hlt2 := hlt
      rw [hceq] at hlt2
      have hc0 : s.cost start_n = 0 := hinv.cost0
      rw [show ({ s with visitedL := u :: s.visitedL } : DijkstraState).cost start_n
          = s.cost start_n from rfl, hc0] at hlt2
      exact absurd hlt2 (not_lt_of_le h0)
  · rcases hupd start_n with ⟨_, hp⟩ | ⟨_, _, hlt, m, hd, _, hceq, _⟩
    · rw [hp]; exact hinv.pred0
    · exfalso
      have h0 : (0 : WithTop ℚ) ≤ s.cost u + ((stepWeight inp u start_n m : ℚ) : WithTop ℚ) :=
        add_nonneg (hinv.nonneg u) (hwnn start_n m hd)
      have hlt2 := hlt
      rw [hceq] at hlt2
      have hc0 : s.cost start_n = 0 := hinv.cost0
      rw [show ({ s with visitedL := u :: s.visitedL } : DijkstraState).cost start_n
          = s.cost start_n from rfl, hc0] at hlt2
      exact absurd hlt2 (not_lt_of_le h0)
  · intro v
    rcases hupd v with ⟨hc, _⟩ | ⟨_, _, _, m, hd, _, hceq, _⟩
    · rw [hc]; exact hinv.nonneg v
    · rw [hceq]
      exact add_nonneg (hinv.nonneg u) (hwnn v m hd)
  · intro w hw v hvn hvnot
    have hw1 : w ∈ (u :: s.visitedL) := by rw [hveq] at hw; exact hw
    have hvnot1 : v ∉ (u :: s.visitedL) := fun h => hvnot (by rw [hveq]; exact h)
    have hv_nv : v ∉ s.visitedL := fun h => hvnot1 (List.mem_cons_of_mem _ h)
    have hfw := (hfrozen w hw1).1
    rcases hupd v with ⟨hc, _⟩ | ⟨_, _, _, m, hd, _, hceq, _⟩
    · rw [hfw, hc]
      show s.cost w ≤ s.cost v
      rcases List.mem_cons.mp hw1 with heq | hw2
      · subst heq
        exact hu_min v hvn hv_nv
      · exact hinv.m1 w hw2 v hvn hv_nv
    · rw [hfw, hceq]
      have base : s.cost w ≤ s.cost u := by
        rcases List.mem_cons.mp hw1 with heq | hw2
        · subst heq
          exact le_refl _
        · exact hinv.m1 w hw2 u hu_lt hu_nv
      exact le_trans base (le_add_of_nonneg_right (hwnn v m hd))
  · intro w hw v hvn m hd hr
    have hw1 : w ∈ (u :: s.visitedL) := by rw [hveq] at hw; exact hw
    rcases List.mem_cons.mp hw1 with heq | hw2
    · subst heq
      by_cases hv1 : v ∈ (w :: s.visitedL)
      · have hfv := (hfrozen v hv1).1
        have hfu := (hfrozen w (List.mem_cons_self w s.visitedL)).1
        rw [hfv, hfu]
        rcases List.mem_cons.mp hv1 with heq2 | hv2
        · subst heq2
          exact le_add_of_nonneg_right (hwnn v m hd)
        · exact le_trans (hinv.m1 v hv2 w hu_lt hu_nv) (le_add_of_nonneg_right (hwnn v m hd))
      · have hpost := relaxRange_post inp n w (List.range n)
          { s with visitedL := w :: s.visitedL } v m
          (fun j hj => List.mem_range.mp hj) (List.mem_range.mpr hvn)
          (List.mem_cons_self w s.visitedL) hv1 hd hr
        rw [hcu]
        exact hpost
    · have hold := hinv.relaxDone w hw2 v hvn m hd hr
      have hfw := (hfrozen w hw1).1
      calc ((List.range n).foldl (relaxNode inp u)
            { s with visitedL := u :: s.visitedL }).cost v
          ≤ s.cost v := hmono v
        _ ≤ s.cost w + ((stepWeight inp w v m : ℚ) : WithTop ℚ) := hold
        _ = ((List.range n).foldl (relaxNode inp u)
            { s with visitedL := u :: s.visitedL }).cost w
              + ((stepWeight inp w v m : ℚ) : WithTop ℚ) := by rw [hfw]

end Core

namespace Core

theorem init_DInvB (inp : SPInput) (n start_n : ℕ) :
    DInvB inp n start_n (initState start_n) := by
  refine ⟨List.nodup_nil, by simp [initState], by simp [initState], ?_, ?_, ?_⟩
  · intro v
    constructor
    · intro h
      by_cases hv : v = start_n
      · exact Or.inl hv
      · simp [initState, hv] at h
    · intro h
      rcases h with rfl | h
      · simp [initState]
      · simp [initState] at h
  · intro v u m hp
    simp [initState] at hp
  · intro pre v suf hsplit
    simp [initState] at hsplit

theorem init_DInvM (inp : SPInput) (n start_n : ℕ) :
    DInvM inp n start_n (initState start_n) := by
  refine ⟨init_DInvB inp n start_n, by simp [initState], rfl, ?_, by simp [initState], ?_⟩
  · intro v
    by_cases hv : v = start_n <;> simp [initState, hv]
  · intro u hu
    simp [initState] at hu

theorem dijkstraLoop_DInvB (inp : SPInput) (end_n n start_n fuel : ℕ) (s : DijkstraState)
    (h : DInvB inp n start_n s) :
    DInvB inp n start_n (dijkstraLoop inp end_n n fuel s) := by
  induction fuel generalizing s with
  | zero => exact h
  | succ k ih =>
    rw [dijkstraLoop]
    cases hsel : selectMin s n with
    | none => exact h
    | some u =>
      dsimp only
      by_cases hend : u = end_n
      · rw [if_pos hend]
        exact h
      · rw [if_neg hend]
        exact ih _ (step_DInvB inp n start_n s u h hsel)

theorem dijkstraLoop_DInvM (inp : SPInput) (end_n n start_n fuel : ℕ) (s : DijkstraState)
    (htw : 0 ≤ inp.time_weight) (hcw : 0 ≤ inp.cost_weight)
    (h : DInvM inp n start_n s) :
    DInvM inp n start_n (dijkstraLoop inp end_n n fuel s) := by
  induction fuel generalizing s with
  | zero => exact h
  | succ k ih =>
    rw [dijkstraLoop]
    cases hsel : selectMin s n with
    | none => exact h
    | some u =>
      dsimp only
      by_cases hend : u = end_n
      · rw [if_pos hend]
        exact h
      · rw [if_neg hend]
        exact ih _ (step_DInvM inp n start_n s u h htw hcw hsel)

theorem dijkstraLoop_end_not_visited (inp : SPInput) (end_n n fuel : ℕ) (s : DijkstraState)
    (h : end_n ∉ s.visitedL) :
    end_n ∉ (dijkstraLoop inp end_n n fuel s).visitedL := by
  induction fuel generalizing s with
  | zero => exact h
  | succ k ih =>
    rw [dijkstraLoop]
    cases hsel : selectMin s n with
    | none => exact h
    | some u =>
      dsimp only
      by_cases hend : u = end_n
      · rw [if_pos hend]
        exact h
      · rw [if_neg hend]
        apply ih
        have hveq := (relaxRange_trans inp n u (List.range n)
          { s with visitedL := u :: s.visitedL }
          (fun j hj => List.mem_range.mp hj) (List.mem_cons_self u s.visitedL)).1
        rw [hveq]
        intro hmem
        rcases List.mem_cons.mp hmem with heq | hmem2
        · exact hend heq.symm
        · exact h hmem2

theorem visited_length_lt (n e : ℕ) (l : List ℕ) (hnd : l.Nodup)
    (hlt : ∀ x ∈ l, x < n) (hen : e < n) (he : e ∉ l) : l.length < n := by
  have h1 : l.length = l.toFinset.card := (List.toFinset_card_of_nodup hnd).symm
  have hsub : l.toFinset ⊆ (Finset.range n).erase e := by
    intro x hx
    have hxl := List.mem_toFinset.mp hx
    exact Finset.mem_erase.mpr ⟨fun h => he (h ▸ hxl), Finset.mem_range.mpr (hlt x hxl)⟩
  have h2 := Finset.card_le_card hsub
  rw [Finset.card_erase_of_mem (Finset.mem_range.mpr hen), Finset.card_range] at h2
  omega

/-- With `node_count` fuel, the main loop always finishes by exhaustion
(`u = -1`) or by selecting the target. -/
theorem dijkstraLoop_break (inp : SPInput) (end_n n fuel : ℕ) (s : DijkstraState)
    (hnd : s.visitedL.Nodup) (hlt : ∀ x ∈ s.visitedL, x < n) (hen : end_n < n)
    (he : end_n ∉ s.visitedL) (hcount : n ≤ fuel + s.visitedL.length) :
    selectMin (dijkstraLoop inp end_n n fuel s) n = none
      ∨ selectMin (dijkstraLoop inp end_n n fuel s) n = some end_n := by
  induction fuel generalizing s with
  | zero =>
    exact absurd hcount (not_le_of_lt (by
      have := visited_length_lt n end_n s.visitedL hnd hlt hen he
      omega))
  | succ k ih =>
    rw [dijkstraLoop]
    cases hsel : selectMin s n with
    | none => exact Or.inl hsel
    | some u =>
      dsimp only
      by_cases hend : u = end_n
      · rw [if_pos hend]
        exact Or.inr (hend ▸ hsel)
      · rw [if_neg hend]
        obtain ⟨hu_lt, hu_nv, _, _⟩ := selectMin_some s n u hsel
        have hveq := (relaxRange_trans inp n u (List.range n)
          { s with visitedL := u :: s.visitedL }
          (fun j hj => List.mem_range.mp hj) (List.mem_cons_self u s.visitedL)).1
        apply ih
        · rw [hveq]
          exact List.nodup_cons.mpr ⟨hu_nv, hnd⟩
        · rw [hveq]
          intro x hx
          rcases List.mem_cons.mp hx with rfl | hx2
          · exact hu_lt
          · exact hlt x hx2
        · rw [hveq]
          intro hmem
          rcases List.mem_cons.mp hmem with heq | hmem2
          · exact hend heq.symm
          · exact he hmem2
        · rw [hveq]
          simp only [List.length_cons]
          omega

end Core

namespace Core

theorem reach_mono {s : DijkstraState} {start_n fuel v : ℕ}
    (h : ReachIn s start_n fuel v) : ∀ fuel2, fuel ≤ fuel2 → ReachIn s start_n fuel2 v := by
  induction h with
  | self fuel => exact fun fuel2 _ => ReachIn.self fuel2
  | step fuel cur p m hne hp hr ih =>
    intro fuel2 hle
    cases fuel2 with
    | zero => omega
    | succ f2 => exact ReachIn.step f2 cur p m hne hp (ih f2 (by omega))

/-- Every visited node's predecessor chain reaches the start within one more
step than its depth in the visiting order. -/
theorem reach_of_visited (inp : SPInput) (n start_n : ℕ) (s : DijkstraState)
    (hinv : DInvB inp n start_n s) :
    ∀ k B A v, B.length ≤ k → s.visitedL = A ++ v :: B →
      ReachIn s start_n (B.length + 1) v := by
  intro k
  induction k with
  | zero =>
    intro B A v hlen hsplit
    by_cases hvs : v = start_n
    · subst hvs
      exact ReachIn.self _
    · exfalso
      have hvmem : v ∈ s.visitedL := by
        rw [hsplit]; exact List.mem_append.mpr (Or.inr (List.mem_cons_self _ _))
      have hfin := hinv.visitedFinite v hvmem
      have := (hinv.finiteIff v).mp hfin
      rcases this with h | h
      · exact hvs h
      · obtain ⟨⟨p, m⟩, hp⟩ := Option.ne_none_iff_exists'.mp h
        have hmem := hinv.predOrder A v B hsplit p m hp
        have : B = [] := List.length_eq_zero.mp (by omega)
        rw [this] at hmem
        exact List.not_mem_nil p hmem
  | succ k ih =>
    intro B A v hlen hsplit
    by_cases hvs : v = start_n
    · subst hvs
      exact ReachIn.self _
    · have hvmem : v ∈ s.visitedL := by
        rw [hsplit]; exact List.mem_append.mpr (Or.inr (List.mem_cons_self _ _))
      have hfin := hinv.visitedFinite v hvmem
      rcases (hinv.finiteIff v).mp hfin with h | h
      · exact absurd h hvs
      · obtain ⟨⟨p, m⟩, hp⟩ := Option.ne_none_iff_exists'.mp h
        have hmem := hinv.predOrder A v B hsplit p m hp
        obtain ⟨A2, B2, rfl⟩ := List.append_of_mem hmem
        have hsplit2 : s.visitedL = (A ++ v :: A2) ++ p :: B2 := by
          rw [hsplit]; simp
        have hlen2 : B2.length ≤ k := by
          simp only [List.length_append, List.length_cons] at hlen ⊢
          omega
        have hreach := ih B2 (A ++ v :: A2) p hlen2 hsplit2
        have hstep := ReachIn.step (B2.length + 1) v p m hvs hp hreach
        exact reach_mono hstep _ (by
          simp only [List.length_append, List.length_cons]
          omega)

/-- If the target has a predecessor then its chain reaches the start within
`node_count` steps. -/
theorem reach_end (inp : SPInput) (n start_n end_n : ℕ) (s : DijkstraState)
    (hinv : DInvB inp n start_n s) (hen : end_n < n) (he : end_n ∉ s.visitedL)
    (hne : end_n ≠ start_n) (hp : s.pred end_n ≠ none) :
    ReachIn s start_n n end_n := by
  obtain ⟨⟨p, m⟩, hp2⟩ := Option.ne_none_iff_exists'.mp hp
  obtain ⟨_, _, _, _, hpv, _⟩ := hinv.predSpec end_n p m hp2
  obtain ⟨A, B, hsplit⟩ := List.append_of_mem hpv
  have hreach := reach_of_visited inp n start_n s hinv B.length B A p (le_refl _) hsplit
  have hstep := ReachIn.step (B.length + 1) end_n p m hne hp2 hreach
  have hlenlt : s.visitedL.length < n :=
    visited_length_lt n end_n s.visitedL hinv.nodup hinv.vlt hen he
  refine reach_mono hstep n ?_
  have : s.visitedL.length = A.length + 1 + B.length := by
    rw [hsplit]; simp [List.length_append]; omega
  omega

end Core

namespace Core

set_option maxHeartbeats 1000000 in
/-- Full specification of the reconstruction walk: it prepends a contiguous
segment chain from the start to the current node, accumulates exactly the
per-segment totals, and the prepended chain's weighted cost is exactly the
node's final tentative cost. -/
theorem buildLoop_spec (inp : SPInput) (n start_n : ℕ) (s : DijkstraState)
    (hinv : DInvB inp n start_n s) (hc0 : s.cost start_n = 0) :
    ∀ fuel cur, ReachIn s start_n fuel cur →
    ∀ (acc : RoutePath) (q : ℚ), s.cost cur = (q : WithTop ℚ) →
      ∃ segs : List PathSegment,
        (buildLoop inp start_n s fuel cur acc).segments = segs ++ acc.segments
        ∧ (buildLoop inp start_n s fuel cur acc).segment_count
            = acc.segment_count + segs.length
        ∧ (buildLoop inp start_n s fuel cur acc).total_distance
            = acc.total_distance + (segs.map PathSegment.distance_km).sum
        ∧ (buildLoop inp start_n s fuel cur acc).total_time
            = acc.total_time + (segs.map PathSegment.time_hours).sum
        ∧ (buildLoop inp start_n s fuel cur acc).total_cost
            = acc.total_cost + (segs.map PathSegment.cost_yuan).sum
        ∧ List.Chain' (fun a b => a.to_node_id = b.from_node_id) segs
        ∧ ((segs = [] ∧ cur = start_n ∧ q = 0) ∨
            (∃ s0 sl, segs.head? = some s0 ∧ s0.from_node_id = start_n
              ∧ segs.getLast? = some sl ∧ sl.to_node_id = cur))
        ∧ (segs.map (segWeight inp)).sum = q
        ∧ (∀ seg ∈ segs,
            seg.from_node_id < n ∧ seg.to_node_id < n
            ∧ seg.distance_km = nodeDist inp seg.from_node_id seg.to_node_id
            ∧ 0.1 < seg.distance_km
            ∧ seg.time_hours
                = (travelInfoOf inp seg.from_node_id seg.to_node_id seg.mode).time_hours
            ∧ seg.cost_yuan
                = (travelInfoOf inp seg.from_node_id seg.to_node_id seg.mode).cost_yuan) := by
  intro fuel cur h
  induction h with
  | self fuel =>
    intro acc q hq
    refine ⟨[], ?_⟩
    rw [Core_buildLoop_self]
    have hq0 : q = 0 := by
      rw [hc0] at hq
      exact_mod_cast hq.symm
    simp [hq0]
  | step fuel cur p m hne hp hr ih =>
    intro acc q hq
    obtain ⟨hpn, hcn, hd, hrch, hpv, hceq⟩ := hinv.predSpec cur p m hp
    have hqp : ∃ qp : ℚ, s.cost p = (qp : WithTop ℚ) ∧ q = qp + stepWeight inp p cur m := by
      cases hcp : s.cost p with
      | top =>
        rw [hq, hcp] at hceq
        simp at hceq
      | coe qp =>
        rw [hq, hcp, ← WithTop.coe_add] at hceq
        exact ⟨qp, rfl, WithTop.coe_inj.mp hceq⟩
    obtain ⟨qp, hcp, hqeq⟩ := hqp
    have hunfold : buildLoop inp start_n s (fuel + 1) cur acc
        = buildLoop inp start_n s fuel p
            { segments := mkSegment inp p cur m :: acc.segments,
              segment_count := acc.segment_count + 1,
              total_time := acc.total_time + (mkSegment inp p cur m).time_hours,
              total_cost := acc.total_cost + (mkSegment inp p cur m).cost_yuan,
              total_distance := acc.total_distance + (mkSegment inp p cur m).distance_km } := by
      rw [buildLoop, if_neg hne, hp]
    obtain ⟨segs_p, ha, hb1, hb2, hb3, hb4, hchain, hshape, hsum, hmem⟩ :=
      ih _ qp hcp
    refine ⟨segs_p ++ [mkSegment inp p cur m], ?_, ?_, ?_, ?_, ?_, ?_, ?_, ?_, ?_⟩
    · rw [hunfold, ha]
      simp
    · rw [hunfold, hb1]
      simp only [List.length_append, List.length_cons, List.length_nil]
      omega
    · rw [hunfold, hb2]
      simp only [List.map_append, List.sum_append, List.map_cons, List.map_nil,
        List.sum_cons, List.sum_nil]
      ring
    · rw [hunfold, hb3]
      simp only [List.map_append, List.sum_append, List.map_cons, List.map_nil,
        List.sum_cons, List.sum_nil]
      ring
    · rw [hunfold, hb4]
      simp only [List.map_append, List.sum_append, List.map_cons, List.map_nil,
        List.sum_cons, List.sum_nil]
      ring
    · rw [List.chain'_append]
      refine ⟨hchain, List.chain'_singleton _, ?_⟩
      intro x hx y hy
      simp only [List.head?_cons, Option.mem_def, Option.some.injEq] at hy
      subst hy
      rcases hshape with ⟨hnil, _, _⟩ | ⟨s0, sl, _, _, hlast, hlto⟩
      · rw [hnil] at hx
        simp at hx
      · rw [hlast] at hx
        simp only [Option.mem_def, Option.some.injEq] at hx
        subst hx
        exact hlto
    · right
      rcases hshape with ⟨hnil, hps, _⟩ | ⟨s0, sl, hhead, hhfrom, _, _⟩
      · subst hnil
        exact ⟨mkSegment inp p cur m, mkSegment inp p cur m, by simp, by
          simp [mkSegment, hps], by simp, by simp [mkSegment]⟩
      · refine ⟨s0, mkSegment inp p cur m, ?_, hhfrom, ?_, by simp [mkSegment]⟩
        · cases segs_p with
          | nil => simp at hhead
          | cons a rest => simp_all
        · simp [List.getLast?_concat]
    · rw [List.map_append, List.sum_append]
      simp only [List.map_cons, List.map_nil, List.sum_cons, List.sum_nil]
      have hsw : segWeight inp (mkSegment inp p cur m) = stepWeight inp p cur m := rfl
      rw [hsum, hsw, hqeq]
      ring
    · intro seg hseg
      rcases List.mem_append.mp hseg with h1 | h1
      · exact hmem seg h1
      · simp only [List.mem_singleton] at h1
        subst h1
        exact ⟨hpn, hcn, rfl, by simpa [mkSegment] using hd, rfl, rfl⟩

end Core

namespace Core

theorem legalStepB_iff (inp : SPInput) (n u v : ℕ) (m : TransportMode) :
    legalStepB inp n u v m = true ↔
      v < n ∧ 0.1 < nodeDist inp u v ∧ (travelInfoOf inp u v m).is_reachable = true := by
  simp [legalStepB, Bool.and_eq_true, decide_eq_true_eq, and_assoc]

theorem chainWeight_nonneg (inp : SPInput) (n : ℕ)
    (htw : 0 ≤ inp.time_weight) (hcw : 0 ≤ inp.cost_weight) :
    ∀ (steps : List (TransportMode × ℕ)) (a b : ℕ),
      legalChainB inp n a steps b = true → 0 ≤ chainWeight inp a steps := by
  intro steps
  induction steps with
  | nil => intro a b _; exact le_refl 0
  | cons step rest ih =>
    intro a b hc
    obtain ⟨m, v⟩ := step
    rw [show legalChainB inp n a ((m, v) :: rest) b
        = (legalStepB inp n a v m && legalChainB inp n v rest b) from rfl,
      Bool.and_eq_true] at hc
    obtain ⟨hstep, hrest⟩ := hc
    obtain ⟨_, hd, _⟩ := (legalStepB_iff inp n a v m).mp hstep
    have h1 : 0 ≤ stepWeight inp a v m :=
      stepWeight_nonneg inp a v m htw hcw (le_trans (by norm_num) (le_of_lt hd))
    exact add_nonneg h1 (ih v b hrest)

/-- At a break state, the target's tentative cost is below the cost of every
engine-usable chain from any visited node to the target. -/
theorem break_lower_bound (inp : SPInput) (n start_n end_n : ℕ) (s : DijkstraState)
    (hinv : DInvM inp n start_n s)
    (htw : 0 ≤ inp.time_weight) (hcw : 0 ≤ inp.cost_weight)
    (hbreak : selectMin s n = none ∨ selectMin s n = some end_n) :
    ∀ (steps : List (TransportMode × ℕ)) (a : ℕ), a ∈ s.visitedL →
      legalChainB inp n a steps end_n = true →
      s.cost end_n ≤ s.cost a + ((chainWeight inp a steps : ℚ) : WithTop ℚ) := by
  intro steps
  induction steps with
  | nil =>
    intro a ha hc
    have : a = end_n := by simpa [legalChainB] using hc
    subst this
    simp [chainWeight]
  | cons step rest ih =>
    intro a ha hc
    obtain ⟨m, v⟩ := step
    rw [show legalChainB inp n a ((m, v) :: rest) end_n
        = (legalStepB inp n a v m && legalChainB inp n v rest end_n) from rfl,
      Bool.and_eq_true] at hc
    obtain ⟨hstep, hrest⟩ := hc
    obtain ⟨hvn, hd, hr⟩ := (legalStepB_iff inp n a v m).mp hstep
    have hrelax := hinv.relaxDone a ha v hvn m hd hr
    have hcw_chain : chainWeight inp a ((m, v) :: rest)
        = stepWeight inp a v m + chainWeight inp v rest := rfl
    by_cases hv : v ∈ s.visitedL
    · calc s.cost end_n
          ≤ s.cost v + ((chainWeight inp v rest : ℚ) : WithTop ℚ) := ih v hv hrest
        _ ≤ (s.cost a + ((stepWeight inp a v m : ℚ) : WithTop ℚ))
              + ((chainWeight inp v rest : ℚ) : WithTop ℚ) := add_le_add_right hrelax _
        _ = s.cost a + ((chainWeight inp a ((m, v) :: rest) : ℚ) : WithTop ℚ) := by
            rw [hcw_chain, WithTop.coe_add, add_assoc]
    · have hce : s.cost end_n ≤ s.cost v := by
        rcases hbreak with hb | hb
        · rw [selectMin_none s n hb v hvn hv]
          exact le_top
        · exact (selectMin_some s n end_n hb).2.2.2 v hvn hv
      have hrest_nn : (0 : WithTop ℚ) ≤ ((chainWeight inp v rest : ℚ) : WithTop ℚ) := by
        exact_mod_cast chainWeight_nonneg inp n htw hcw rest v end_n hrest
      calc s.cost end_n
          ≤ s.cost v := hce
        _ ≤ s.cost a + ((stepWeight inp a v m : ℚ) : WithTop ℚ) := hrelax
        _ ≤ (s.cost a + ((stepWeight inp a v m : ℚ) : WithTop ℚ))
              + ((chainWeight inp v rest : ℚ) : WithTop ℚ) := le_add_of_nonneg_right hrest_nn
        _ = s.cost a + ((chainWeight inp a ((m, v) :: rest) : ℚ) : WithTop ℚ) := by
            rw [hcw_chain, WithTop.coe_add, add_assoc]

end Core

namespace Core

theorem dijkstraLoop_visited_mono (inp : SPInput) (end_n n fuel : ℕ) (s : DijkstraState)
    (x : ℕ) (h : x ∈ s.visitedL) : x ∈ (dijkstraLoop inp end_n n fuel s).visitedL := by
  induction fuel generalizing s with
  | zero => exact h
  | succ k ih =>
    rw [dijkstraLoop]
    cases hsel : selectMin s n with
    | none => exact h
    | some u =>
      dsimp only
      by_cases hend : u = end_n
      · rw [if_pos hend]
        exact h
      · rw [if_neg hend]
        apply ih
        have hveq := (relaxRange_trans inp n u (List.range n)
          { s with visitedL := u :: s.visitedL }
          (fun j hj => List.mem_range.mp hj) (List.mem_cons_self u s.visitedL)).1
        rw [hveq]
        exact List.mem_cons_of_mem _ h

/-- When source and target differ, the source is visited in the final state. -/
theorem finalState_start_visited (inp : SPInput) (n start_n end_n : ℕ)
    (hs : start_n < n) (hne : start_n ≠ end_n) :
    start_n ∈ (finalState inp start_n end_n n).visitedL := by
  obtain ⟨k, rfl⟩ : ∃ k, n = k + 1 := ⟨n - 1, by omega⟩
  rw [finalState, dijkstraLoop, Core_selectMin_init start_n (k + 1) hs]
  dsimp only
  rw [if_neg hne]
  apply dijkstraLoop_visited_mono
  have hveq := (relaxRange_trans inp (k + 1) start_n (List.range (k + 1))
    { initState start_n with visitedL := start_n :: (initState start_n).visitedL }
    (fun j hj => List.mem_range.mp hj)
    (List.mem_cons_self start_n (initState start_n).visitedL)).1
  rw [hveq]
  exact List.mem_cons_self _ _

end Core

set_option maxHeartbeats 1000000 in
/-- Everything a successful `find_shortest_path` result satisfies: contiguity,
correct cached totals, in-range endpoints and above-cutoff recomputed
distances per segment, the empty route exactly for a self-query, the right
endpoints otherwise, and a weighted cost equal to the target's final
tentative cost. -/
theorem fsp_some_spec (calcDist : ℚ → ℚ → ℚ → ℚ → ℚ) (network : TrafficNetwork)
    (si ei : ℤ) (tw cw : ℚ) (r : RoutePath)
    (htw : 0 ≤ tw) (hcw : 0 ≤ cw)
    (hfsp : Core.find_shortest_path calcDist network si ei tw cw = some r) :
    RoutePath.contiguous r ∧ RoutePath.totalsOk r
    ∧ (∀ seg ∈ r.segments,
        seg.from_node_id < traffic_network_get_node_count network
        ∧ seg.to_node_id < traffic_network_get_node_count network
        ∧ seg.distance_km
            = Core.nodeDist ⟨calcDist, network, tw, cw⟩ seg.from_node_id seg.to_node_id
        ∧ 0.1 < seg.distance_km)
    ∧ (si.toNat = ei.toNat → r = RoutePath.empty)
    ∧ (si.toNat ≠ ei.toNat →
        ∃ s0 sl, r.segments.head? = some s0 ∧ s0.from_node_id = si.toNat
          ∧ r.segments.getLast? = some sl ∧ sl.to_node_id = ei.toNat)
    ∧ (si.toNat ≠ ei.toNat →
        ∃ q : ℚ,
          (Core.finalState ⟨calcDist, network, tw, cw⟩ si.toNat ei.toNat
            (traffic_network_get_node_count network)).cost ei.toNat = (q : WithTop ℚ)
          ∧ Core.routeWeightedCost ⟨calcDist, network, tw, cw⟩ r = q) := by
  simp only [Core.find_shortest_path] at hfsp
  by_cases hg : si < 0 ∨ si ≥ (traffic_network_get_node_count network : ℤ)
      ∨ ei < 0 ∨ ei ≥ (traffic_network_get_node_count network : ℤ)
  · rw [if_pos hg] at hfsp
    exact absurd hfsp (by simp)
  rw [if_neg hg] at hfsp
  push_neg at hg
  obtain ⟨hg1, hg2, hg3, hg4⟩ := hg
  have hsn : si.toNat < traffic_network_get_node_count network := by omega
  have hen : ei.toNat < traffic_network_get_node_count network := by omega
  by_cases heq : si.toNat = ei.toNat
  · rw [← heq] at hfsp
    rw [Core_dijkstraLoop_self ⟨calcDist, network, tw, cw⟩ si.toNat _ _ hsn] at hfsp
    rw [if_neg (by simp)] at hfsp
    rw [Core_buildLoop_self] at hfsp
    have hr : r = RoutePath.empty := (Option.some.inj hfsp).symm
    subst hr
    refine ⟨List.chain'_nil, ?_, ?_, fun _ => rfl, fun h => absurd heq h, fun h => absurd heq h⟩
    · exact ⟨rfl, rfl, rfl, rfl⟩
    · intro seg hseg
      exact absurd hseg (List.not_mem_nil seg)
  · have hinvM := Core.dijkstraLoop_DInvM ⟨calcDist, network, tw, cw⟩ ei.toNat
      (traffic_network_get_node_count network) si.toNat
      (traffic_network_get_node_count network) (Core.initState si.toNat) htw hcw
      (Core.init_DInvM _ _ _)
    have hinvB := hinvM.toB
    have hend_nv := Core.dijkstraLoop_end_not_visited ⟨calcDist, network, tw, cw⟩ ei.toNat
      (traffic_network_get_node_count network) (traffic_network_get_node_count network)
      (Core.initState si.toNat) (by simp [Core.initState])
    by_cases hpred : (Core.dijkstraLoop ⟨calcDist, network, tw, cw⟩ ei.toNat
        (traffic_network_get_node_count network) (traffic_network_get_node_count network)
        (Core.initState si.toNat)).pred ei.toNat = none
    · rw [if_pos ⟨hpred, heq⟩] at hfsp
      exact absurd hfsp (by simp)
    · rw [if_neg (fun h => hpred h.1)] at hfsp
      have hr : r = Core.buildLoop ⟨calcDist, network, tw, cw⟩ si.toNat
          (Core.dijkstraLoop ⟨calcDist, network, tw, cw⟩ ei.toNat
            (traffic_network_get_node_count network)
            (traffic_network_get_node_count network) (Core.initState si.toNat))
          (traffic_network_get_node_count network) ei.toNat RoutePath.empty :=
        (Option.some.inj hfsp).symm
      have hreach := Core.reach_end ⟨calcDist, network, tw, cw⟩
        (traffic_network_get_node_count network) si.toNat ei.toNat _ hinvB hen hend_nv
        (fun h => heq h.symm) hpred
      have hfin : (Core.dijkstraLoop ⟨calcDist, network, tw, cw⟩ ei.toNat
          (traffic_network_get_node_count network) (traffic_network_get_node_count network)
          (Core.initState si.toNat)).cost ei.toNat ≠ ⊤ :=
        (hinvB.finiteIff ei.toNat).mpr (Or.inr hpred)
      obtain ⟨q, hq⟩ : ∃ q : ℚ, (Core.dijkstraLoop ⟨calcDist, network, tw, cw⟩ ei.toNat
          (traffic_network_get_node_count network) (traffic_network_get_node_count network)
          (Core.initState si.toNat)).cost ei.toNat = (q : WithTop ℚ) := by
        cases hc : (Core.dijkstraLoop ⟨calcDist, network, tw, cw⟩ ei.toNat
            (traffic_network_get_node_count network) (traffic_network_get_node_count network)
            (Core.initState si.toNat)).cost ei.toNat with
        | top => exact absurd hc hfin
        | coe q => exact ⟨q, rfl⟩
      obtain ⟨segs, ha, hb1, hb2, hb3, hb4, hchain, hshape, hsum, hmem⟩ :=
        Core.buildLoop_spec ⟨calcDist, network, tw, cw⟩
          (traffic_network_get_node_count network) si.toNat _ hinvB hinvM.cost0
          (traffic_network_get_node_count network) ei.toNat hreach RoutePath.empty q hq
      have hsegs : r.segments = segs := by
        rw [hr, ha]
        simp [RoutePath.empty]
      refine ⟨?_, ⟨?_, ?_, ?_, ?_⟩, ?_, fun h => absurd h heq, fun _ => ?_, fun _ => ?_⟩
      · rw [RoutePath.contiguous, hsegs]
        exact hchain
      · rw [hsegs, hr, hb2]
        simp [RoutePath.empty]
      · rw [hsegs, hr, hb3]
        simp [RoutePath.empty]
      · rw [hsegs, hr, hb4]
        simp [RoutePath.empty]
      · rw [hsegs, hr, hb1]
        simp [RoutePath.empty]
      · intro seg hseg
        rw [hsegs] at hseg
        obtain ⟨hf, ht, hdist, hcut, _, _⟩ := hmem seg hseg
        exact ⟨hf, ht, hdist, hcut⟩
      · rcases hshape with ⟨_, hcs, _⟩ | ⟨s0, sl, hh, hhf, hl, hlt⟩
        · exact absurd hcs.symm heq
        · exact ⟨s0, sl, by rw [hsegs]; exact hh, hhf, by rw [hsegs]; exact hl, hlt⟩
      · refine ⟨q, hq, ?_⟩
        rw [Core.routeWeightedCost, hsegs, hsum]

set_option maxHeartbeats 400000 in
/-- The totals of a successful `find_shortest_path` follow the claim even at
the level of the `RoutePath` value. -/
theorem fsp_empty_iff_self (calcDist : ℚ → ℚ → ℚ → ℚ → ℚ) (network : TrafficNetwork)
    (si ei : ℤ) (tw cw : ℚ) (r : RoutePath)
    (htw : 0 ≤ tw) (hcw : 0 ≤ cw)
    (hfsp : Core.find_shortest_path calcDist network si ei tw cw = some r) :
    (r.segments = [] ↔ si.toNat = ei.toNat) := by
  obtain ⟨_, _, _, hself, hne, _⟩ :=
    fsp_some_spec calcDist network si ei tw cw r htw hcw hfsp
  constructor
  · intro hempty
    by_contra hq
    obtain ⟨s0, _, hh, _⟩ := hne hq
    rw [hempty] at hh
    simp at hh
  · intro h
    rw [hself h]
    rfl

/-- C3, counterexample to the claim as stated: in the three-landmark network
`cexNet` the direct Bus edge `0 → 1` is legal per the Cost Model (different
cities, both Landmarks), yet its weighted cost `17/1800000` is strictly below
the weighted cost `17/225` of the route the engine returns — the 50 m pair is
silently excluded by the `0.1` km cutoff at line 143 and the engine takes a
400 km detour through node 2 instead. -/
theorem C3_counterexample :
    Core.modelChainB cexInp (traffic_network_get_node_count cexNet) (Int.toNat 0)
        [(TransportMode.BUS, 1)] (Int.toNat 1) = true
    ∧ ∃ r : RoutePath,
        Core.find_shortest_path cexDist cexNet 0 1 1 1 = some r
        ∧ Core.chainWeight cexInp (Int.toNat 0) [(TransportMode.BUS, 1)]
            < Core.routeWeightedCost cexInp r := by
  refine ⟨by decide, ⟨{
                        segments := [
                          { from_node_id := 0, to_node_id := 2, mode := TransportMode.BUS,
                            distance_km := 200, time_hours := 5, cost_yuan := 40 },
                          { from_node_id := 2, to_node_id := 1, mode := TransportMode.BUS,
                            distance_km := 200, time_hours := 5, cost_yuan := 40 }],
                        segment_count := 2, total_time := 10, total_cost := 80,
                        total_distance := 400 }, by decide, by decide⟩⟩

set_option maxHeartbeats 1000000 in
/-- C3, amended: a returned route is optimal among the chains of edges the
engine itself may use — in-range target, geographic distance strictly above
the `0.1` km cutoff, and reachable per the Cost Model (`legalChainB`).  The
claim's quantification over all Cost-Model-legal chains fails only because of
the cutoff (see `C3_counterexample`). -/
theorem C3_amended_optimality (calcDist : ℚ → ℚ → ℚ → ℚ → ℚ) (network : TrafficNetwork)
    (si ei : ℤ) (tw cw : ℚ) (r : RoutePath) (steps : List (TransportMode × ℕ))
    (htw : 0 ≤ tw) (hcw : 0 ≤ cw)
    (hfsp : Core.find_shortest_path calcDist network si ei tw cw = some r)
    (hchain : Core.legalChainB ⟨calcDist, network, tw, cw⟩
        (traffic_network_get_node_count network) si.toNat steps ei.toNat = true) :
    Core.routeWeightedCost ⟨calcDist, network, tw, cw⟩ r
      ≤ Core.chainWeight ⟨calcDist, network, tw, cw⟩ si.toNat steps := by
  obtain ⟨-, -, -, hself, -, hcost⟩ :=
    fsp_some_spec calcDist network si ei tw cw r htw hcw hfsp
  by_cases heq : si.toNat = ei.toNat
  · rw [hself heq]
    have h0 : Core.routeWeightedCost ⟨calcDist, network, tw, cw⟩ RoutePath.empty = 0 := rfl
    rw [h0]
    exact Core.chainWeight_nonneg ⟨calcDist, network, tw, cw⟩
      (traffic_network_get_node_count network) htw hcw steps si.toNat ei.toNat hchain
  · obtain ⟨q, hq, hrq⟩ := hcost heq
    rw [hrq]
    have hrange : ¬(si < 0 ∨ si ≥ ((traffic_network_get_node_count network : ℤ))
        ∨ ei < 0 ∨ ei ≥ ((traffic_network_get_node_count network : ℤ))) := by
      intro hg
      simp only [Core.find_shortest_path] at hfsp
      rw [if_pos hg] at hfsp
      exact absurd hfsp (by simp)
    push_neg at hrange
    obtain ⟨hg1, hg2, hg3, hg4⟩ := hrange
    have hsn : si.toNat < traffic_network_get_node_count network := by omega
    have hen : ei.toNat < traffic_network_get_node_count network := by omega
    have hinvM := Core.dijkstraLoop_DInvM ⟨calcDist, network, tw, cw⟩ ei.toNat
      (traffic_network_get_node_count network) si.toNat
      (traffic_network_get_node_count network) (Core.initState si.toNat) htw hcw
      (Core.init_DInvM _ _ _)
    have hbreak := Core.dijkstraLoop_break ⟨calcDist, network, tw, cw⟩ ei.toNat
      (traffic_network_get_node_count network) (traffic_network_get_node_count network)
      (Core.initState si.toNat) (by simp [Core.initState]) (by simp [Core.initState])
      hen (by simp [Core.initState]) (by simp [Core.initState])
    have hsv : si.toNat ∈ (Core.finalState ⟨calcDist, network, tw, cw⟩ si.toNat ei.toNat
        (traffic_network_get_node_count network)).visitedL :=
      Core.finalState_start_visited ⟨calcDist, network, tw, cw⟩
        (traffic_network_get_node_count network) si.toNat ei.toNat hsn heq
    rw [Core.finalState] at hq hsv
    have hlb := Core.break_lower_bound ⟨calcDist, network, tw, cw⟩
      (traffic_network_get_node_count network) si.toNat ei.toNat
      (Core.dijkstraLoop ⟨calcDist, network, tw, cw⟩ ei.toNat
        (traffic_network_get_node_count network) (traffic_network_get_node_count network)
        (Core.initState si.toNat))
      hinvM htw hcw hbreak steps si.toNat hsv hchain
    rw [hq, hinvM.cost0, zero_add] at hlb
    exact_mod_cast hlb

/-- C3, witness for the amended optimality: in the two-node scenario network
the returned direct Driving route is no more expensive than the engine-usable
direct Driving chain. -/
theorem C3_amended_witness :
    Core.routeWeightedCost ⟨scenDist, scenNet, 1, 0⟩
        { segments := [
            { from_node_id := 0, to_node_id := 1, mode := TransportMode.DRIVING,
              distance_km := 1000, time_hours := 50 / 3, cost_yuan := 800 }],
          segment_count := 1, total_time := 50 / 3, total_cost := 800,
          total_distance := 1000 }
      ≤ Core.chainWeight ⟨scenDist, scenNet, 1, 0⟩ (Int.toNat 0)
          [(TransportMode.DRIVING, 1)] :=
  C3_amended_optimality scenDist scenNet 0 1 1 0 _ _ (by norm_num) (by norm_num)
    (by decide) (by decide)

namespace Core

theorem legalChainB_append (inp : SPInput) (n : ℕ) :
    ∀ (xs ys : List (TransportMode × ℕ)) (a b c : ℕ),
      legalChainB inp n a xs b = true → legalChainB inp n b ys c = true →
      legalChainB inp n a (xs ++ ys) c = true := by
  intro xs
  induction xs with
  | nil =>
    intro ys a b c hx hy
    have hab : a = b := by simpa [legalChainB] using hx
    subst hab
    simpa using hy
  | cons hd tl ih =>
    intro ys a b c hx hy
    obtain ⟨m, v⟩ := hd
    rw [show legalChainB inp n a ((m, v) :: tl) b
        = (legalStepB inp n a v m && legalChainB inp n v tl b) from rfl,
      Bool.and_eq_true] at hx
    rw [List.cons_append,
      show legalChainB inp n a ((m, v) :: (tl ++ ys)) c
        = (legalStepB inp n a v m && legalChainB inp n v (tl ++ ys) c) from rfl,
      Bool.and_eq_true]
    exact ⟨hx.1, ih ys v b c hx.2 hy⟩

/-- From any predecessor-chain certificate an engine-usable chain of edges
from the source can be read off. -/
theorem chain_of_reach (inp : SPInput) (n start_n : ℕ) (s : DijkstraState)
    (hinv : DInvB inp n start_n s) :
    ∀ fuel v, ReachIn s start_n fuel v →
      ∃ steps : List (TransportMode × ℕ),
        legalChainB inp n start_n steps v = true := by
  intro fuel v h
  induction h with
  | self fuel => exact ⟨[], by simp [legalChainB]⟩
  | step fuel cur p m hne hp hr ih =>
    obtain ⟨steps, hsteps⟩ := ih
    refine ⟨steps ++ [(m, cur)], ?_⟩
    apply legalChainB_append inp n steps [(m, cur)] start_n p cur hsteps
    obtain ⟨hpn, hcn, hd, hreach2, -, -⟩ := hinv.predSpec cur p m hp
    rw [show legalChainB inp n p [(m, cur)] cur
        = (legalStepB inp n p cur m && legalChainB inp n cur [] cur) from rfl,
      Bool.and_eq_true]
    exact ⟨(legalStepB_iff inp n p cur m).mpr ⟨hcn, hd, hreach2⟩, by simp [legalChainB]⟩

end Core

set_option maxHeartbeats 1000000 in
/-- C6: `find_shortest_path` returns the absence-of-result value exactly when
an endpoint id is out of range, or the endpoints differ and the target ended
the search without a finite tentative cost; and, for in-range queries, that
final cost is infinite exactly when no engine-usable chain of edges joins the
endpoints.  The embedding is a pure function of its inputs, so determinism
and non-mutation of the graph hold structurally. -/
theorem C6_not_found (calcDist : ℚ → ℚ → ℚ → ℚ → ℚ) (network : TrafficNetwork)
    (si ei : ℤ) (tw cw : ℚ) (htw : 0 ≤ tw) (hcw : 0 ≤ cw) :
    (Core.find_shortest_path calcDist network si ei tw cw = none
      ↔ ((si < 0 ∨ si ≥ ((traffic_network_get_node_count network : ℤ))
          ∨ ei < 0 ∨ ei ≥ ((traffic_network_get_node_count network : ℤ)))
        ∨ (si.toNat ≠ ei.toNat
          ∧ (Core.finalState ⟨calcDist, network, tw, cw⟩ si.toNat ei.toNat
              (traffic_network_get_node_count network)).cost ei.toNat = ⊤)))
    ∧ (¬(si < 0 ∨ si ≥ ((traffic_network_get_node_count network : ℤ))
          ∨ ei < 0 ∨ ei ≥ ((traffic_network_get_node_count network : ℤ))) →
        ((Core.finalState ⟨calcDist, network, tw, cw⟩ si.toNat ei.toNat
            (traffic_network_get_node_count network)).cost ei.toNat = ⊤
          ↔ ¬∃ steps : List (TransportMode × ℕ),
              Core.legalChainB ⟨calcDist, network, tw, cw⟩
                (traffic_network_get_node_count network) si.toNat steps ei.toNat = true)) := by
  rw [Core.finalState]
  by_cases hg : si < 0 ∨ si ≥ ((traffic_network_get_node_count network : ℤ))
      ∨ ei < 0 ∨ ei ≥ ((traffic_network_get_node_count network : ℤ))
  · refine ⟨⟨fun _ => Or.inl hg, fun _ => ?_⟩, fun hng => absurd hg hng⟩
    simp only [Core.find_shortest_path]
    rw [if_pos hg]
  · have hg2 := hg
    push_neg at hg2
    obtain ⟨hg1a, hg1b, hg1c, hg1d⟩ := hg2
    have hsn : si.toNat < traffic_network_get_node_count network := by omega
    have hen : ei.toNat < traffic_network_get_node_count network := by omega
    have hinvM := Core.dijkstraLoop_DInvM ⟨calcDist, network, tw, cw⟩ ei.toNat
      (traffic_network_get_node_count network) si.toNat
      (traffic_network_get_node_count network) (Core.initState si.toNat) htw hcw
      (Core.init_DInvM _ _ _)
    have hinvB := hinvM.toB
    have hend_nv := Core.dijkstraLoop_end_not_visited ⟨calcDist, network, tw, cw⟩ ei.toNat
      (traffic_network_get_node_count network) (traffic_network_get_node_count network)
      (Core.initState si.toNat) (by simp [Core.initState])
    have hA : Core.find_shortest_path calcDist network si ei tw cw = none
        ↔ ((Core.dijkstraLoop ⟨calcDist, network, tw, cw⟩ ei.toNat
            (traffic_network_get_node_count network) (traffic_network_get_node_count network)
            (Core.initState si.toNat)).pred ei.toNat = none ∧ si.toNat ≠ ei.toNat) := by
      simp only [Core.find_shortest_path]
      rw [if_neg hg]
      split_ifs with hp
      · simp [hp]
      · simp [hp]
    have hpredTop :
        ((Core.dijkstraLoop ⟨calcDist, network, tw, cw⟩ ei.toNat
            (traffic_network_get_node_count network) (traffic_network_get_node_count network)
            (Core.initState si.toNat)).pred ei.toNat = none ∧ si.toNat ≠ ei.toNat)
        ↔ (si.toNat ≠ ei.toNat
            ∧ (Core.dijkstraLoop ⟨calcDist, network, tw, cw⟩ ei.toNat
                (traffic_network_get_node_count network)
                (traffic_network_get_node_count network)
                (Core.initState si.toNat)).cost ei.toNat = ⊤) := by
      constructor
      · rintro ⟨hp, hne⟩
        refine ⟨hne, ?_⟩
        by_contra htop
        rcases (hinvB.finiteIff ei.toNat).mp htop with h | h
        · exact hne h.symm
        · exact h hp
      · rintro ⟨hne, htop⟩
        refine ⟨?_, hne⟩
        by_contra hp
        exact (hinvB.finiteIff ei.toNat).mpr (Or.inr hp) htop
    constructor
    · rw [hA, hpredTop]
      constructor
      · exact fun h => Or.inr h
      · rintro (h | h)
        · exact absurd h hg
        · exact h
    · intro _
      constructor
      · rintro htop ⟨steps, hsteps⟩
        by_cases hne : si.toNat = ei.toNat
        · have hceq := congrArg (Core.dijkstraLoop ⟨calcDist, network, tw, cw⟩ ei.toNat
            (traffic_network_get_node_count network) (traffic_network_get_node_count network)
            (Core.initState si.toNat)).cost hne
          rw [hinvM.cost0, htop] at hceq
          exact absurd hceq (by simp)
        · have hbreak := Core.dijkstraLoop_break ⟨calcDist, network, tw, cw⟩ ei.toNat
            (traffic_network_get_node_count network) (traffic_network_get_node_count network)
            (Core.initState si.toNat) (by simp [Core.initState]) (by simp [Core.initState])
            hen (by simp [Core.initState]) (by simp [Core.initState])
          have hsv : si.toNat ∈ (Core.finalState ⟨calcDist, network, tw, cw⟩ si.toNat ei.toNat
              (traffic_network_get_node_count network)).visitedL :=
            Core.finalState_start_visited ⟨calcDist, network, tw, cw⟩
              (traffic_network_get_node_count network) si.toNat ei.toNat hsn hne
          rw [Core.finalState] at hsv
          have hlb := Core.break_lower_bound ⟨calcDist, network, tw, cw⟩
            (traffic_network_get_node_count network) si.toNat ei.toNat
            (Core.dijkstraLoop ⟨calcDist, network, tw, cw⟩ ei.toNat
              (traffic_network_get_node_count network)
              (traffic_network_get_node_count network) (Core.initState si.toNat))
            hinvM htw hcw hbreak steps si.toNat hsv hsteps
          rw [htop, hinvM.cost0, zero_add] at hlb
          exact WithTop.not_top_le_coe _ hlb
      · intro hnex
        by_cases hne : si.toNat = ei.toNat
        · exact absurd ⟨[], by simp [Core.legalChainB, hne]⟩ hnex
        · by_contra htop
          rcases (hinvB.finiteIff ei.toNat).mp htop with h | h
          · exact hne h.symm
          · have hreach := Core.reach_end ⟨calcDist, network, tw, cw⟩
              (traffic_network_get_node_count network) si.toNat ei.toNat
              (Core.dijkstraLoop ⟨calcDist, network, tw, cw⟩ ei.toNat
                (traffic_network_get_node_count network)
                (traffic_network_get_node_count network) (Core.initState si.toNat))
              hinvB hen hend_nv (fun hh => hne hh.symm) h
            obtain ⟨steps, hsteps⟩ := Core.chain_of_reach ⟨calcDist, network, tw, cw⟩
              (traffic_network_get_node_count network) si.toNat
              (Core.dijkstraLoop ⟨calcDist, network, tw, cw⟩ ei.toNat
                (traffic_network_get_node_count network)
                (traffic_network_get_node_count network) (Core.initState si.toNat))
              hinvB (traffic_network_get_node_count network) ei.toNat hreach
            exact hnex ⟨steps, hsteps⟩

/-- C6, witness: an out-of-range target id yields the absence-of-result
value. -/
theorem C6_witness : Core.find_shortest_path scenDist scenNet 0 5 1 0 = none :=
  (C6_not_found scenDist scenNet 0 5 1 0 (by norm_num) (by norm_num)).1.mpr
    (Or.inl (by decide))

namespace Core

theorem tspRelax_ptOK (cm : ℕ → ℕ → WithTop ℚ) (mask u : ℕ) (hu : mask.testBit u = true)
    (t : TspTables) (hpt : PtOK cm t) (v : ℕ) : PtOK cm (tspRelax cm mask u t v) := by
  simp only [tspRelax]
  split_ifs with h1 h2
  · exact hpt
  · intro mask2 v2 u2 hp
    have hp2 : (if mask2 = mask ||| 1 <<< v ∧ v2 = v then some u else t.pt mask2 v2)
        = some u2 := hp
    by_cases h3 : mask2 = mask ||| 1 <<< v ∧ v2 = v
    · rw [if_pos h3] at hp2
      have hu2 : u2 = u := (Option.some.inj hp2).symm
      subst hu2
      refine ⟨?_, ?_⟩
      · intro hcm
        rw [h3.2] at hcm
        rw [hcm, add_top] at h2
        exact absurd h2 not_top_lt
      · intro huv
        rw [h3.2] at huv
        exact h1 (huv ▸ hu)
    · rw [if_neg h3] at hp2
      exact hpt mask2 v2 u2 hp2
  · exact hpt

theorem tspInner_ptOK (cm : ℕ → ℕ → WithTop ℚ) (num_nodes mask : ℕ) (t : TspTables)
    (u : ℕ) (hpt : PtOK cm t) : PtOK cm (tspInner cm num_nodes mask t u) := by
  rw [tspInner]
  split_ifs with h
  · have key : ∀ (l : List ℕ) (t2 : TspTables), PtOK cm t2 →
        PtOK cm (l.foldl (tspRelax cm mask u) t2) := by
      intro l
      induction l with
      | nil => exact fun t2 ht2 => ht2
      | cons x xs ih =>
        intro t2 ht2
        exact ih _ (tspRelax_ptOK cm mask u h.1 t2 ht2 x)
    exact key _ t hpt
  · exact hpt

theorem tspMaskStep_ptOK (cm : ℕ → ℕ → WithTop ℚ) (num_nodes : ℕ) (t : TspTables)
    (mask : ℕ) (hpt : PtOK cm t) : PtOK cm (tspMaskStep cm num_nodes t mask) := by
  rw [tspMaskStep]
  have key : ∀ (l : List ℕ) (t2 : TspTables), PtOK cm t2 →
      PtOK cm (l.foldl (tspInner cm num_nodes mask) t2) := by
    intro l
    induction l with
    | nil => exact fun t2 ht2 => ht2
    | cons x xs ih =>
      intro t2 ht2
      exact ih _ (tspInner_ptOK cm num_nodes mask t2 x ht2)
  exact key _ t hpt

theorem tspDP_ptOK (cm : ℕ → ℕ → WithTop ℚ) (num_nodes : ℕ) :
    PtOK cm (tspDP cm num_nodes) := by
  rw [tspDP]
  have key : ∀ (l : List ℕ) (t2 : TspTables), PtOK cm t2 →
      PtOK cm (l.foldl (tspMaskStep cm num_nodes) t2) := by
    intro l
    induction l with
    | nil => exact fun t2 ht2 => ht2
    | cons x xs ih =>
      intro t2 ht2
      exact ih _ (tspMaskStep_ptOK cm num_nodes t2 x ht2)
  refine key _ _ ?_
  intro mask v u hp
  exact absurd hp (by simp)

/-- The closing scan only ever selects a nonzero index with finite tour and
return-leg costs. -/
theorem tspSelectEnd_spec (cm : ℕ → ℕ → WithTop ℚ) (dpFull : ℕ → WithTop ℚ)
    (num_nodes i : ℕ) (h : tspSelectEnd cm dpFull num_nodes = some i) :
    i ≠ 0 ∧ cm i 0 ≠ ⊤ := by
  rw [tspSelectEnd] at h
  have key : ∀ (l : List ℕ) (acc : Option ℕ × WithTop ℚ),
      (l.foldl (fun acc j =>
        if dpFull j ≠ ⊤ ∧ cm j 0 ≠ ⊤ ∧ dpFull j + cm j 0 < acc.2 then
          ((some j : Option ℕ), dpFull j + cm j 0)
        else acc) acc).1 = some i →
      acc.1 = some i ∨ (i ∈ l ∧ cm i 0 ≠ ⊤) := by
    intro l
    induction l with
    | nil => exact fun acc h2 => Or.inl h2
    | cons x xs ih =>
      intro acc h2
      rw [List.foldl_cons] at h2
      rcases ih _ h2 with h3 | h3
      · by_cases hg : dpFull x ≠ ⊤ ∧ cm x 0 ≠ ⊤ ∧ dpFull x + cm x 0 < acc.2
        · rw [if_pos hg] at h3
          simp only at h3
          have hxi : x = i := Option.some.inj h3
          subst hxi
          exact Or.inr ⟨List.mem_cons_self x xs, hg.2.1⟩
        · rw [if_neg hg] at h3
          exact Or.inl h3
      · exact Or.inr ⟨List.mem_cons_of_mem x h3.1, h3.2⟩
  rcases key _ _ h with h2 | h2
  · exact absurd h2 (by simp)
  · have hi := List.mem_range'_1.mp h2.1
    exact ⟨by omega, h2.2⟩

/-- A finite off-diagonal cost-matrix entry certifies a successful pairwise
query with positive total distance. -/
theorem cm_ne_top (calcDist : ℚ → ℚ → ℚ → ℚ → ℚ) (network : TrafficNetwork)
    (tw cw : ℚ) (node_ids : List ℤ) (u v : ℕ) (hne : u ≠ v)
    (h : tsp_cost_matrix calcDist network tw cw node_ids u v ≠ ⊤) :
    ∃ p : RoutePath,
      find_shortest_path calcDist network (node_ids.getD u 0) (node_ids.getD v 0) tw cw
        = some p ∧ 0 < p.total_distance := by
  rw [tsp_cost_matrix, if_neg hne] at h
  cases hp : find_shortest_path calcDist network (node_ids.getD u 0) (node_ids.getD v 0)
      tw cw with
  | none =>
    rw [hp] at h
    exact absurd rfl h
  | some p =>
    rw [hp] at h
    refine ⟨p, rfl, ?_⟩
    by_contra hd
    have h2 : (if 0 < p.total_distance then
        ((p.total_time / (6000 / 40) * tw + p.total_cost / (6000 * 1.5) * cw : ℚ) : WithTop ℚ)
      else ⊤) ≠ ⊤ := h
    rw [if_neg hd] at h2
    exact h2 rfl

end Core

namespace Core

/-- Everything a pairwise tour leg with positive total distance satisfies:
the full route invariants, nonemptiness, and the queried endpoints. -/
theorem tsp_leg_spec (calcDist : ℚ → ℚ → ℚ → ℚ → ℚ) (network : TrafficNetwork)
    (si ei : ℤ) (tw cw : ℚ) (p : RoutePath) (htw : 0 ≤ tw) (hcw : 0 ≤ cw)
    (hfsp : find_shortest_path calcDist network si ei tw cw = some p)
    (hpos : 0 < p.total_distance) :
    RoutePath.contiguous p ∧ RoutePath.totalsOk p
    ∧ (∀ seg ∈ p.segments, segGood ⟨calcDist, network, tw, cw⟩ seg)
    ∧ p.segments ≠ []
    ∧ ∃ s0 sl, p.segments.head? = some s0 ∧ s0.from_node_id = si.toNat
        ∧ p.segments.getLast? = some sl ∧ sl.to_node_id = ei.toNat := by
  obtain ⟨h1, h2, h3, hself, hends, -⟩ :=
    fsp_some_spec calcDist network si ei tw cw p htw hcw hfsp
  have hne : si.toNat ≠ ei.toNat := by
    intro he
    rw [hself he] at hpos
    exact absurd hpos (by norm_num [RoutePath.empty])
  have hnonempty : p.segments ≠ [] := by
    intro hnil
    rw [h2.1, hnil] at hpos
    simp at hpos
  exact ⟨h1, h2, fun seg hs => h3 seg hs, hnonempty, hends hne⟩

theorem stitch_eq_of_nonempty (main leg : RoutePath) (hne : leg.segments ≠ []) :
    stitch_paths main (some leg)
      = { segments := leg.segments ++ main.segments,
          segment_count := main.segment_count + leg.segment_count,
          total_time := main.total_time + leg.total_time,
          total_cost := main.total_cost + leg.total_cost,
          total_distance := main.total_distance + leg.total_distance } := by
  simp [stitch_paths, hne]

/-- Stitching a positive-distance pairwise leg in front of a well-formed
partial tour preserves all route invariants and moves the head to the leg's
source. -/
theorem stitch_leg_invariants (calcDist : ℚ → ℚ → ℚ → ℚ → ℚ) (network : TrafficNetwork)
    (tw cw : ℚ) (si ei : ℤ) (p path : RoutePath) (htw : 0 ≤ tw) (hcw : 0 ≤ cw)
    (hfsp : find_shortest_path calcDist network si ei tw cw = some p)
    (hpos : 0 < p.total_distance)
    (hc : RoutePath.contiguous path) (ht : RoutePath.totalsOk path)
    (hg : ∀ seg ∈ path.segments, segGood ⟨calcDist, network, tw, cw⟩ seg)
    (hhead : ∀ s0, path.segments.head? = some s0 → s0.from_node_id = ei.toNat) :
    RoutePath.contiguous (stitch_paths path (some p))
    ∧ RoutePath.totalsOk (stitch_paths path (some p))
    ∧ (∀ seg ∈ (stitch_paths path (some p)).segments,
        segGood ⟨calcDist, network, tw, cw⟩ seg)
    ∧ (∀ s0, (stitch_paths path (some p)).segments.head? = some s0 →
        s0.from_node_id = si.toNat) := by
  obtain ⟨hpc, hptot, hpg, hpne, s0, sl, hh, hhf, hl, hlt⟩ :=
    tsp_leg_spec calcDist network si ei tw cw p htw hcw hfsp hpos
  rw [stitch_eq_of_nonempty path p hpne]
  refine ⟨?_, ⟨?_, ?_, ?_, ?_⟩, ?_, ?_⟩
  · refine List.Chain'.append hpc hc ?_
    intro x hx y hy
    rw [hl, Option.mem_def] at hx
    have hx2 : x = sl := Option.some.inj hx.symm
    rw [Option.mem_def] at hy
    rw [hx2, hlt, hhead y hy]
  · show path.total_distance + p.total_distance
      = (List.map PathSegment.distance_km (p.segments ++ path.segments)).sum
    rw [List.map_append, List.sum_append, ht.1, hptot.1, add_comm]
  · show path.total_time + p.total_time
      = (List.map PathSegment.time_hours (p.segments ++ path.segments)).sum
    rw [List.map_append, List.sum_append, ht.2.1, hptot.2.1, add_comm]
  · show path.total_cost + p.total_cost
      = (List.map PathSegment.cost_yuan (p.segments ++ path.segments)).sum
    rw [List.map_append, List.sum_append, ht.2.2.1, hptot.2.2.1, add_comm]
  · show path.segment_count + p.segment_count = (p.segments ++ path.segments).length
    rw [List.length_append, ht.2.2.2, hptot.2.2.2]
    omega
  · intro seg hs
    rcases List.mem_append.mp hs with hmem | hmem
    · exact hpg seg hmem
    · exact hg seg hmem
  · intro t0 hth
    have hht : (p.segments ++ path.segments).head? = some s0 := by
      cases hps : p.segments with
      | nil => exact absurd hps hpne
      | cons a l =>
        rw [hps] at hh
        exact hh
    rw [hht] at hth
    exact Option.some.inj hth ▸ hhf

end Core

namespace Core

set_option maxHeartbeats 1000000 in
/-- The reconstruction walk preserves contiguity, exact cached totals and
per-segment well-formedness from any well-formed starting path whose head
sits at the current tour city. -/
theorem tspRebuild_spec (calcDist : ℚ → ℚ → ℚ → ℚ → ℚ) (network : TrafficNetwork)
    (tw cw : ℚ) (node_ids : List ℤ) (pt : ℕ → ℕ → Option ℕ)
    (htw : 0 ≤ tw) (hcw : 0 ≤ cw)
    (hpt : ∀ mask v u, pt mask v = some u →
      tsp_cost_matrix calcDist network tw cw node_ids u v ≠ ⊤ ∧ u ≠ v) :
    ∀ (fuel mask cur : ℕ) (path : RoutePath),
      RoutePath.contiguous path → RoutePath.totalsOk path →
      (∀ seg ∈ path.segments, segGood ⟨calcDist, network, tw, cw⟩ seg) →
      (∀ s0, path.segments.head? = some s0 →
        s0.from_node_id = (node_ids.getD cur 0).toNat) →
      RoutePath.contiguous (tspRebuild calcDist network tw cw node_ids pt fuel mask cur path)
      ∧ RoutePath.totalsOk (tspRebuild calcDist network tw cw node_ids pt fuel mask cur path)
      ∧ ∀ seg ∈ (tspRebuild calcDist network tw cw node_ids pt fuel mask cur path).segments,
          segGood ⟨calcDist, network, tw, cw⟩ seg := by
  intro fuel
  induction fuel with
  | zero => exact fun mask cur path hc ht hg _ => ⟨hc, ht, hg⟩
  | succ k ih =>
    intro mask cur path hc ht hg hhead
    rw [tspRebuild]
    by_cases h0 : cur = 0
    · rw [if_pos h0]
      exact ⟨hc, ht, hg⟩
    · rw [if_neg h0]
      cases hp : pt mask cur with
      | none => exact ⟨hc, ht, hg⟩
      | some prev =>
        dsimp only
        obtain ⟨hcm, hneuv⟩ := hpt mask cur prev hp
        obtain ⟨p, hfsp, hpos⟩ := cm_ne_top calcDist network tw cw node_ids prev cur hneuv hcm
        rw [hfsp]
        obtain ⟨hc2, ht2, hg2, hhead2⟩ := stitch_leg_invariants calcDist network tw cw
          (node_ids.getD prev 0) (node_ids.getD cur 0) p path htw hcw hfsp hpos hc ht hg hhead
        exact ih (mask ^^^ (1 <<< cur)) prev _ hc2 ht2 hg2 hhead2

end Core

set_option maxHeartbeats 1000000 in
/-- Every successful `solve_tsp` result is a contiguous route with correct
cached totals and well-formed segments. -/
theorem tsp_some_spec (calcDist : ℚ → ℚ → ℚ → ℚ → ℚ) (network : TrafficNetwork)
    (ids : List ℤ) (nn : ℤ) (tw cw : ℚ) (r : RoutePath)
    (htw : 0 ≤ tw) (hcw : 0 ≤ cw)
    (h : Core.solve_tsp calcDist network ids nn tw cw = some r) :
    RoutePath.contiguous r ∧ RoutePath.totalsOk r
    ∧ ∀ seg ∈ r.segments, Core.segGood ⟨calcDist, network, tw, cw⟩ seg := by
  simp only [Core.solve_tsp] at h
  split_ifs at h with h1 h2
  cases hsel : Core.tspSelectEnd (Core.tsp_cost_matrix calcDist network tw cw ids)
      ((Core.tspDP (Core.tsp_cost_matrix calcDist network tw cw ids) nn.toNat).dp
        (2 ^ nn.toNat - 1)) nn.toNat with
  | none =>
    rw [hsel] at h
    exact absurd h (by simp)
  | some i =>
    rw [hsel] at h
    have hr : r = Core.tspRebuild calcDist network tw cw ids
        (Core.tspDP (Core.tsp_cost_matrix calcDist network tw cw ids) nn.toNat).pt
        nn.toNat (2 ^ nn.toNat - 1) i
        (Core.stitch_paths RoutePath.empty
          (Core.find_shortest_path calcDist network (ids.getD i 0) (ids.getD 0 0) tw cw)) :=
      (Option.some.inj h).symm
    subst hr
    obtain ⟨hi0, hcm⟩ := Core.tspSelectEnd_spec
      (Core.tsp_cost_matrix calcDist network tw cw ids)
      ((Core.tspDP (Core.tsp_cost_matrix calcDist network tw cw ids) nn.toNat).dp
        (2 ^ nn.toNat - 1)) nn.toNat i hsel
    obtain ⟨p, hfsp, hpos⟩ := Core.cm_ne_top calcDist network tw cw ids i 0 hi0 hcm
    rw [hfsp]
    obtain ⟨hc2, ht2, hg2, hhead2⟩ := Core.stitch_leg_invariants calcDist network tw cw
      (ids.getD i 0) (ids.getD 0 0) p RoutePath.empty htw hcw hfsp hpos
      List.chain'_nil ⟨rfl, rfl, rfl, rfl⟩
      (fun seg hs => absurd hs (List.not_mem_nil seg))
      (fun s0 hs0 => absurd hs0 (by simp [RoutePath.empty]))
    exact Core.tspRebuild_spec calcDist network tw cw ids
      (Core.tspDP (Core.tsp_cost_matrix calcDist network tw cw ids) nn.toNat).pt
      htw hcw
      (Core.tspDP_ptOK (Core.tsp_cost_matrix calcDist network tw cw ids) nn.toNat)
      nn.toNat (2 ^ nn.toNat - 1) i _ hc2 ht2 hg2 hhead2

/-- C7: every route returned by `find_shortest_path` or by `solve_tsp` is
contiguous — each segment ends at the node the next one departs from — and
its cached total distance, time, cost and segment count equal the sums of the
per-segment fields. -/
theorem C7_route_invariants (calcDist : ℚ → ℚ → ℚ → ℚ → ℚ) (network : TrafficNetwork)
    (tw cw : ℚ) (r : RoutePath) (htw : 0 ≤ tw) (hcw : 0 ≤ cw)
    (h : (∃ si ei : ℤ, Core.find_shortest_path calcDist network si ei tw cw = some r)
      ∨ ∃ (ids : List ℤ) (nn : ℤ), Core.solve_tsp calcDist network ids nn tw cw = some r) :
    RoutePath.contiguous r ∧ RoutePath.totalsOk r := by
  rcases h with ⟨si, ei, hf⟩ | ⟨ids, nn, hf⟩
  · obtain ⟨h1, h2, -⟩ := fsp_some_spec calcDist network si ei tw cw r htw hcw hf
    exact ⟨h1, h2⟩
  · obtain ⟨h1, h2, -⟩ := tsp_some_spec calcDist network ids nn tw cw r htw hcw hf
    exact ⟨h1, h2⟩

/-- C7 instantiated on the two-node scenario query. -/
theorem C7_witness :
    RoutePath.contiguous
      { segments := [
          { from_node_id := 0, to_node_id := 1, mode := TransportMode.DRIVING,
            distance_km := 1000, time_hours := 50 / 3, cost_yuan := 800 }],
        segment_count := 1, total_time := 50 / 3, total_cost := 800,
        total_distance := 1000 }
    ∧ RoutePath.totalsOk
      { segments := [
          { from_node_id := 0, to_node_id := 1, mode := TransportMode.DRIVING,
            distance_km := 1000, time_hours := 50 / 3, cost_yuan := 800 }],
        segment_count := 1, total_time := 50 / 3, total_cost := 800,
        total_distance := 1000 } :=
  C7_route_invariants scenDist scenNet 1 0 _ (by norm_num) (by norm_num)
    (Or.inl ⟨0, 1, by decide⟩)

/-- C10 (implicit): every segment of any route returned by
`find_shortest_path` or `solve_tsp` records exactly the oracle distance of
its endpoint pair, and that distance strictly exceeds `0.1` km — so two
nodes at most `0.1` km apart are never joined by a direct segment, whatever
the per-mode legality rules would allow. -/
theorem C10_min_distance (calcDist : ℚ → ℚ → ℚ → ℚ → ℚ) (network : TrafficNetwork)
    (tw cw : ℚ) (r : RoutePath) (htw : 0 ≤ tw) (hcw : 0 ≤ cw)
    (h : (∃ si ei : ℤ, Core.find_shortest_path calcDist network si ei tw cw = some r)
      ∨ ∃ (ids : List ℤ) (nn : ℤ), Core.solve_tsp calcDist network ids nn tw cw = some r) :
    ∀ seg ∈ r.segments,
      seg.distance_km
          = Core.nodeDist ⟨calcDist, network, tw, cw⟩ seg.from_node_id seg.to_node_id
      ∧ 0.1 < seg.distance_km := by
  rcases h with ⟨si, ei, hf⟩ | ⟨ids, nn, hf⟩
  · obtain ⟨-, -, h3, -⟩ := fsp_some_spec calcDist network si ei tw cw r htw hcw hf
    intro seg hs
    obtain ⟨-, -, hd, hcut⟩ := h3 seg hs
    exact ⟨hd, hcut⟩
  · obtain ⟨-, -, h3⟩ := tsp_some_spec calcDist network ids nn tw cw r htw hcw hf
    intro seg hs
    have hg := h3 seg hs
    exact ⟨hg.2.2.1, hg.2.2.2⟩

set_option maxRecDepth 40000 in
/-- C10 instantiated on the first segment of the two-city tour. -/
theorem C10_witness :
    (1000 : ℚ) = Core.nodeDist ⟨scenDist, scenNet, 1, 0⟩ 0 1
    ∧ (0.1 : ℚ) < (1000 : ℚ) :=
  C10_min_distance scenDist scenNet 1 0
    { segments := [
        { from_node_id := 0, to_node_id := 1, mode := TransportMode.DRIVING,
          distance_km := 1000, time_hours := 50 / 3, cost_yuan := 800 },
        { from_node_id := 1, to_node_id := 0, mode := TransportMode.DRIVING,
          distance_km := 1000, time_hours := 50 / 3, cost_yuan := 800 }],
      segment_count := 2, total_time := 100 / 3, total_cost := 1600,
      total_distance := 2000 }
    (by norm_num) (by norm_num)
    (Or.inr ⟨[0, 1], 2, by decide⟩)
    { from_node_id := 0, to_node_id := 1, mode := TransportMode.DRIVING,
      distance_km := 1000, time_hours := 50 / 3, cost_yuan := 800 }
    (by decide)
